import Mathlib

/- Verification development for the agentic coding runtime.

   Shallow embedding of:
   - app/agentic/types/assistant_message.py  (AggressiveStreamingAssistantMessageParser)
   - app/agentic/storage/file_operation_manager.py  (FileOperationManager)
   - app/agentic/storage/list_store.py  (TokenBasedCompactingListStore)
   - app/agentic/agents/coder/event_bus.py  (EventBus)
   - app/agentic/agents/coder/state_manager.py and agent.py  (circuit breaker,
     tool-result processing)

   Strings are modelled as Lean String, buffers of streamed characters as
   List Char.  Machine-level details that the claims do not touch (uuid4
   identifiers, wall-clock throttling, asyncio scheduling) are modelled by
   explicit counters or parameters, as noted next to each definition. -/

set_option maxHeartbeats 1000000
set_option maxRecDepth 8000

/- ===================== Streaming assistant-message parser ================= -/

/-- The tool names of ToolUseName, in enum declaration order
    (assistant_message.py lines 26-38). -/
def toolUseNames : List String :=
  ["read-file", "write-to-file", "apply-diff", "search-files", "list-files",
   "ask-followup-question", "delete-file", "rename-file", "add-dependency", "kb-search"]

/-- The parameter names of ToolParamName, in enum declaration order
    (assistant_message.py lines 10-23). -/
def toolParamNames : List String :=
  ["path", "content", "diff", "recursive", "regex", "file-pattern", "source",
   "destination", "name", "query", "question"]

/-- Status of an emitted ToolEvent.  `progress` models the source's
    "partial" status string. -/
inductive ToolStatus
  | started
  | progress
  | executing
  deriving DecidableEq, Repr

/-- Events emitted by the streaming parser (TextEvent / ThinkingEvent /
    ToolEvent of app/agentic/types/events.py, restricted to the fields the
    parser fills in). -/
inductive StreamEvt
  | text (s : List Char)
  | thinking (s : List Char)
  | tool (name : String) (toolId : Nat) (status : ToolStatus)
      (params : Option (List (String × List Char)))
  deriving DecidableEq, Repr

/-- Mutable state of AggressiveStreamingAssistantMessageParser
    (assistant_message.py reset_state, lines 348-361).
    `pendingTag` models partial_tag, `pendingParam` models partial_param,
    `accTagActive`/`accTag` model accumulating_tag/accumulated_tag.
    `nextId` models the stream of fresh uuid4 tool identifiers. -/
@[ext]
structure ParserState where
  inThinking : Bool
  inTool : Bool
  currentTool : Option String
  currentParam : Option String
  pendingTag : List Char
  pendingParam : List Char
  currentParams : List (String × List Char)
  currentToolId : Option Nat
  thinkingBuffer : List Char
  textBuffer : List Char
  accTagActive : Bool
  accTag : List Char
  nextId : Nat
  deriving DecidableEq, Repr

/-- reset_state (all Python fields to their defaults); the uuid counter is
    not parser state in the source and is threaded through. -/
def resetParser (n : Nat) : ParserState :=
  { inThinking := false, inTool := false, currentTool := none, currentParam := none,
    pendingTag := [], pendingParam := [], currentParams := [], currentToolId := none,
    thinkingBuffer := [], textBuffer := [], accTagActive := false, accTag := [],
    nextId := n }

/-- Python str.lstrip("<"): drop every leading '<'. -/
def pyLstripLt (l : List Char) : List Char := l.dropWhile (· = '<')

/-- Python str.rstrip(">"): drop every trailing '>'. -/
def pyRstripGt (l : List Char) : List Char := (l.reverse.dropWhile (· = '>')).reverse

/-- Scan a list of candidate names the way _detect_possible_tag loops over an
    enum: `some (some n)` = exact match, `some none` = the tag is a proper
    starting segment of a name, `none` = no match at all. -/
def scanNames : List String → List Char → Option (Option String)
  | [], _ => none
  | n :: rest, tag =>
    if n.data = tag then some (some n)
    else if List.isPrefixOf tag n.data then some none
    else scanNames rest tag

/-- _detect_possible_tag (assistant_message.py lines 376-414): returns
    (tool_name, param_name, is_closing_tag). -/
def detectTag (raw : List Char) : Option String × Option String × Option Bool :=
  let t0 := pyRstripGt (pyLstripLt raw)
  let isCl : Bool := t0.head? = some '/'
  let tag := if isCl then t0.drop 1 else t0
  match scanNames toolUseNames tag with
  | some (some n) => (some n, none, some isCl)
  | some none => (none, none, some isCl)
  | none =>
    match scanNames toolParamNames tag with
    | some (some p) => (none, some p, some isCl)
    | some none => (none, none, some isCl)
    | none =>
      if tag = "thinking".data then (some "thinking", none, some isCl)
      else if List.isPrefixOf tag "thinking".data then (none, none, some isCl)
      else (none, none, none)

/-- Python dict assignment d[k] = v: update in place if present (insertion
    order kept), else append. -/
def dictSet (d : List (String × List Char)) (k : String) (v : List Char) :
    List (String × List Char) :=
  if (d.lookup k).isSome then d.map (fun kv => if kv.1 = k then (k, v) else kv)
  else d ++ [(k, v)]

/-- _flush_buffers (assistant_message.py lines 363-374). -/
def flushBufs (s : ParserState) : ParserState × List StreamEvt :=
  if s.inThinking ∧ s.thinkingBuffer ≠ [] then
    ({ s with thinkingBuffer := [] }, [.thinking s.thinkingBuffer])
  else if s.textBuffer ≠ [] ∧ ¬ s.inTool ∧ ¬ s.inThinking then
    ({ s with textBuffer := [] }, [.text s.textBuffer])
  else (s, [])

/-- One iteration of the while-loop of __call__ (assistant_message.py lines
    437-531): the loop consumes exactly one character per iteration. -/
def stepChar (s : ParserState) (c : Char) : ParserState × List StreamEvt :=
  if s.accTagActive then
    let acc := s.accTag ++ [c]
    -- accumulated_tag.endswith(">") holds exactly when the new character is '>'
    if c = '>' then
      let d := detectTag acc
      if d.1 = none ∧ d.2.1 = none then
        -- not a recognized tag: flushed back as parameter / thinking / text
        if s.currentParam.isSome then
          ({ s with
              pendingParam := s.pendingParam ++ acc,
              accTagActive := false, accTag := [] }, [])
        else if s.inThinking then
          ({ s with
              thinkingBuffer := s.thinkingBuffer ++ acc,
              accTagActive := false, accTag := [] }, [])
        else if ¬ s.inTool then
          ({ s with
              textBuffer := s.textBuffer ++ acc,
              accTagActive := false, accTag := [] }, [])
        else ({ s with accTagActive := false, accTag := [] }, [])
      else
        let cl : Bool := d.2.2.getD false
        if d.1 = some "thinking" then
          let f := flushBufs s
          ({ f.1 with inThinking := ¬ cl, accTagActive := false, accTag := [] }, f.2)
        else if d.1.isSome then
          if ¬ cl then
            let f := flushBufs s
            ({ f.1 with
                inTool := true, currentTool := d.1,
                currentToolId := some s.nextId, nextId := s.nextId + 1,
                accTagActive := false, accTag := [] },
             f.2 ++ [.tool (d.1.getD "") s.nextId .started none])
          else if s.inTool ∧ s.currentTool.isSome ∧ s.currentToolId.isSome then
            ({ s with
                inTool := false, currentTool := none, currentParams := [],
                accTagActive := false, accTag := [] },
             [.tool (s.currentTool.getD "") (s.currentToolId.getD 0) .executing
              (some s.currentParams)])
          else ({ s with accTagActive := false, accTag := [] }, [])
        else if d.2.1.isSome ∧ s.inTool then
          if ¬ cl then
            ({ s with
                currentParam := d.2.1, pendingParam := [],
                accTagActive := false, accTag := [] }, [])
          else if s.currentParam.isSome then
            let ps := dictSet s.currentParams (s.currentParam.getD "") s.pendingParam
            ({ s with
                currentParams := ps, currentParam := none,
                accTagActive := false, accTag := [] },
             if s.currentTool.isSome ∧ s.currentToolId.isSome then
               [.tool (s.currentTool.getD "") (s.currentToolId.getD 0) .progress (some ps)]
             else [])
          else ({ s with accTagActive := false, accTag := [] }, [])
        else ({ s with accTagActive := false, accTag := [] }, [])
    else ({ s with accTag := acc }, [])
  else if c = '<' then
    ({ s with accTagActive := true, accTag := ['<'] }, [])
  else if s.currentParam.isSome then
    ({ s with pendingParam := s.pendingParam ++ [c] }, [])
  else if s.inThinking then
    ({ s with thinkingBuffer := s.thinkingBuffer ++ [c] }, [])
  else if ¬ s.inTool then
    ({ s with textBuffer := s.textBuffer ++ [c] }, [])
  else (s, [])

/-- Run the character loop over a whole list of characters. -/
def processChars (s : ParserState) : List Char → ParserState × List StreamEvt
  | [] => (s, [])
  | c :: cs =>
    let r1 := stepChar s c
    let r2 := processChars r1.1 cs
    (r2.1, r1.2 ++ r2.2)

/-- __call__ with a string chunk: prepend partial_tag, run the loop, flush
    buffers at end of chunk. -/
def feedChunk (s : ParserState) (chunk : List Char) : ParserState × List StreamEvt :=
  let r1 := processChars { s with pendingTag := [] } (s.pendingTag ++ chunk)
  let r2 := flushBufs r1.1
  (r2.1, r1.2 ++ r2.2)

/-- __call__ with chunk = None (end of stream): flush buffers, reset state. -/
def feedEnd (s : ParserState) : ParserState × List StreamEvt :=
  let r := flushBufs s
  (resetParser r.1.nextId, r.2)

/-- Feed a sequence of chunks. -/
def feedChunks : ParserState → List (List Char) → ParserState × List StreamEvt
  | s, [] => (s, [])
  | s, c :: cs =>
    let r1 := feedChunk s c
    let r2 := feedChunks r1.1 cs
    (r2.1, r1.2 ++ r2.2)

/-- All events produced by feeding the chunks and then end-of-stream, from a
    freshly constructed parser. -/
def runChunks (chunks : List (List Char)) : List StreamEvt :=
  let r1 := feedChunks (resetParser 0) chunks
  let r2 := feedEnd r1.1
  r1.2 ++ r2.2

/-- Concatenation of the contents of the Text events, ignoring the rest. -/
def textConcat : List StreamEvt → List Char
  | [] => []
  | .text s :: es => s ++ textConcat es
  | _ :: es => textConcat es

/-- Concatenation of the contents of the Thinking events, ignoring the rest. -/
def thinkingConcat : List StreamEvt → List Char
  | [] => []
  | .thinking s :: es => s ++ thinkingConcat es
  | _ :: es => thinkingConcat es

/-- Select the Tool events with status `executing`. -/
def executingEvents (es : List StreamEvt) : List StreamEvt :=
  es.filter fun e =>
    match e with
    | .tool _ _ .executing _ => true
    | _ => false

/-- Python str.strip(): remove leading and trailing whitespace. -/
def pyStrip (l : List Char) : List Char :=
  ((l.dropWhile Char.isWhitespace).reverse.dropWhile Char.isWhitespace).reverse

/- =========================== Proof infrastructure ========================= -/

/-- A state whose two content buffers carry extra pending prefixes `pT`
    (text) and `pTh` (thinking).  Chunked runs differ from single-chunk runs
    only by having flushed such prefixes out earlier. -/
def bufExt (pT pTh : List Char) (s : ParserState) : ParserState :=
  { s with textBuffer := pT ++ s.textBuffer,
           thinkingBuffer := pTh ++ s.thinkingBuffer }

/-- The pending prefixes are only carried on the buffer that the current mode
    is actively filling. -/
def PendInv (pT pTh : List Char) (s : ParserState) : Prop :=
  (pT ≠ [] → s.inThinking = false ∧ s.inTool = false) ∧
  (pTh ≠ [] → s.inThinking = true)

/-- Events of processing the remaining characters and then flushing at the
    end of the stream. -/
def totalRun (s : ParserState) (cs : List Char) : List StreamEvt :=
  (processChars s cs).2 ++ (flushBufs (processChars s cs).1).2

/- ========================= File operation manager ========================= -/

/-- Error values raised by FileOperationManager methods. -/
inductive PyErr
  | runtimeError (msg : String)
  | fileNotFound (msg : String)
  | fileExists (msg : String)
  deriving DecidableEq, Repr

/-- PROTECTED_PATHS (file_operation_manager.py line 23). -/
def protectedDirNames : List String := [".lovable"]

/-- PROTECTED_FILES (file_operation_manager.py lines 24-26). -/
def protectedFiles : List String := ["src/tsconfig.json"]

/-- str.startswith for a literal: the needle's characters begin the string. -/
def strStartsWith (s pre : String) : Bool := List.isPrefixOf pre.data s.data

/-- str.endswith for a literal: the needle's characters end the string. -/
def strEndsWith (s suf : String) : Bool := List.isPrefixOf suf.data.reverse s.data.reverse

/-- str.split(sep) for a one-character separator, accumulating the current
    component in reverse. -/
def splitSepGo (sep : Char) : List Char → List Char → List String
  | [], cur => [String.mk cur.reverse]
  | c :: rest, cur =>
    if c = sep then String.mk cur.reverse :: splitSepGo sep rest []
    else splitSepGo sep rest (c :: cur)

/-- str.split(sep) for a one-character separator. -/
def strSplitSep (sep : Char) (s : String) : List String := splitSepGo sep s.data []

/-- sep.join(parts) for the "/" separator. -/
def joinSlash (parts : List String) : String :=
  String.mk (((parts.map String.data).intersperse ['/']).flatten)

/-- The component-folding loop of posixpath.normpath: skip "" and ".",
    append non-".." components, let ".." pop the previous component unless
    there is nothing to pop or the previous component is itself "..". -/
def normParts (initialSlashes : Nat) (comps : List String) : List String :=
  comps.foldl
    (fun acc comp =>
      if comp = "" ∨ comp = "." then acc
      else if comp ≠ ".." ∨ (initialSlashes = 0 ∧ acc = []) ∨ acc.getLast? = some ".." then
        acc ++ [comp]
      else if acc ≠ [] then acc.dropLast
      else acc)
    []

/-- os.path.normpath for POSIX paths (the backend runs on Linux). -/
def pyNormPath (p : String) : String :=
  if p = "" then "."
  else
    let initialSlashes : Nat :=
      if strStartsWith p "/" then
        (if strStartsWith p "//" ∧ ¬ strStartsWith p "///" then 2 else 1)
      else 0
    let comps := strSplitSep '/' p
    let body := joinSlash (normParts initialSlashes comps)
    let res := String.mk (List.replicate initialSlashes '/') ++ body
    if res = "" then "." else res

/-- _is_protected_path (file_operation_manager.py lines 179-206): normalize,
    compare against the protected files, then look for a protected directory
    name among the non-empty non-"." components. -/
def isProtectedPath (rel : String) : Bool :=
  let norm := pyNormPath rel
  protectedFiles.contains norm ||
    ((strSplitSep '/' norm).any fun part =>
      !(part = "") && !(part = ".") && protectedDirNames.contains part)

/-- os.path.join for two POSIX path segments. -/
def pyJoin (a b : String) : String :=
  if strStartsWith b "/" then b
  else if a = "" ∨ strEndsWith a "/" then a ++ b
  else a ++ "/" ++ b

/-- resolve_path (file_operation_manager.py lines 128-139). -/
def resolvePath (cwd p : String) : String :=
  if strStartsWith p "/" then p else pyNormPath (pyJoin cwd p)

/-- ChangeType (file_operation_manager.py lines 41-47). -/
inductive ChangeTypeM
  | write
  | delete
  | rename
  | addDependency
  deriving DecidableEq, Repr

/-- FileChange (file_operation_manager.py lines 50-57). -/
structure FileChangeM where
  path : String
  changeType : ChangeTypeM
  content : Option String
  metadata : List (String × String)
  deriving DecidableEq, Repr

/-- WriteTurn (file_operation_manager.py lines 70-93); hook_results omitted:
    the claims do not read it. -/
structure WriteTurnM where
  turnId : String
  cwd : String
  changes : List FileChangeM
  deriving DecidableEq, Repr

/-- A registered hook.  The hook body and its optional callback are external
    effects; they are modelled by the hook's name, its blocking flag and
    whether running it succeeds. -/
structure HookM where
  name : String
  blocking : Bool
  ok : Bool
  deriving DecidableEq, Repr

/-- FileOperationManager instance state (cwd, the single live turn, the two
    hook lists). -/
structure FomState where
  cwd : String
  currentTurn : Option WriteTurnM
  writeHooks : List HookM
  postCommitHooks : List HookM
  deriving DecidableEq, Repr

/-- The backing filesystem: an association of absolute paths to file
    contents (os.path.exists is modelled as presence of the path). -/
abbrev Fs := List (String × String)

def fsExists (fs : Fs) (p : String) : Bool := (fs.lookup p).isSome

def fsWrite (fs : Fs) (p content : String) : Fs :=
  if (fs.lookup p).isSome then fs.map (fun kv => if kv.1 = p then (p, content) else kv)
  else fs ++ [(p, content)]

def fsRemove (fs : Fs) (p : String) : Fs := fs.filter (fun kv => !(kv.1 = p))

def fsRename (fs : Fs) (p dst : String) : Fs :=
  match fs.lookup p with
  | some v => fsWrite (fsRemove fs p) dst v
  | none => fs

/-- begin_turn (file_operation_manager.py lines 141-145). -/
def beginTurn (st : FomState) (tid : String) : FomState × Option PyErr :=
  match st.currentTurn with
  | some t => (st, some (.runtimeError ("Turn " ++ t.turnId ++ " is still active")))
  | none => ({ st with currentTurn := some ⟨tid, st.cwd, []⟩ }, none)

/-- write_file (file_operation_manager.py lines 147-177).  Errors leave the
    manager unchanged, matching the source where the raise happens before the
    append. -/
def writeFile (st : FomState) (path content : String)
    (metadata : List (String × String)) : FomState × Option PyErr :=
  match st.currentTurn with
  | none => (st, some (.runtimeError "No active turn"))
  | some turn =>
    if isProtectedPath path then
      (st, some (.runtimeError ("Cannot write to protected file/path: " ++ path)))
    else
      let absPath := resolvePath st.cwd path
      let turn' := { turn with
        changes := turn.changes ++ [⟨absPath, .write, some content, metadata⟩] }
      ({ st with currentTurn := some turn' }, none)

/-- delete_file (file_operation_manager.py lines 208-239). -/
def deleteFile (st : FomState) (fs : Fs) (path : String)
    (metadata : List (String × String)) : FomState × Option PyErr :=
  match st.currentTurn with
  | none => (st, some (.runtimeError "No active turn"))
  | some turn =>
    if isProtectedPath path then
      (st, some (.runtimeError ("Cannot delete protected file/path: " ++ path)))
    else
      let absPath := resolvePath st.cwd path
      if ¬ fsExists fs absPath then
        (st, some (.fileNotFound ("File not found: " ++ absPath)))
      else
        let turn' := { turn with
          changes := turn.changes ++ [⟨absPath, .delete, none, metadata⟩] }
        ({ st with currentTurn := some turn' }, none)

/-- rename_file (file_operation_manager.py lines 241-292).  The destination
    is stored in the change's content field; Python's `metadata or {...}`
    makes an empty metadata dict fall back to the default. -/
def renameFile (st : FomState) (fs : Fs) (src dst : String)
    (metadata : List (String × String)) : FomState × Option PyErr :=
  match st.currentTurn with
  | none => (st, some (.runtimeError "No active turn"))
  | some turn =>
    if isProtectedPath src then
      (st, some (.runtimeError ("Cannot rename protected source file/path: " ++ src)))
    else if isProtectedPath dst then
      (st, some (.runtimeError ("Cannot rename to protected destination file/path: " ++ dst)))
    else
      let absSrc := resolvePath st.cwd src
      let absDst := resolvePath st.cwd dst
      if ¬ fsExists fs absSrc then
        (st, some (.fileNotFound ("Source file not found: " ++ absSrc)))
      else if fsExists fs absDst then
        (st, some (.fileExists ("Destination file already exists: " ++ absDst)))
      else
        let turn' := { turn with
          changes := turn.changes ++
            [⟨absSrc, .rename, some absDst,
              if metadata = [] then [("destination", absDst)] else metadata⟩] }
        ({ st with currentTurn := some turn' }, none)

/-- Steps of the commit_turn trace, in execution order. -/
inductive CommitStep
  | preHook (name : String) (ok : Bool)
  | applied (c : FileChangeM)
  | postBlocking (name : String) (ok : Bool)
  | postConcurrent (name : String) (ok : Bool)
  deriving DecidableEq, Repr

/-- Applying one FileChange to the backing filesystem (commit_turn, lines
    428-508): writes create or replace the file; deletes and renames of
    missing targets are logged warnings, not errors; add_dependency only
    publishes an event. -/
def applyChange (fs : Fs) (c : FileChangeM) : Fs :=
  match c.changeType with
  | .write =>
    match c.content with
    | some content => fsWrite fs c.path content
    | none => fs
  | .delete => if fsExists fs c.path then fsRemove fs c.path else fs
  | .rename =>
    match c.content with
    | some dst => if fsExists fs c.path then fsRename fs c.path dst else fs
    | none => fs
  | .addDependency => fs

/-- commit_turn (file_operation_manager.py lines 385-597), returning the new
    manager state, the new filesystem and the ordered trace of what ran:
    pre-commit hooks always run; the changes are applied in log order only if
    at least one exists; post-commit hooks (blocking first, then the
    concurrent ones) run only in that case; the turn is always cleared. -/
def commitTurn (st : FomState) (fs : Fs) : FomState × Fs × List CommitStep :=
  match st.currentTurn with
  | none => (st, fs, [])
  | some turn =>
    let preTrace := st.writeHooks.map (fun h => CommitStep.preHook h.name h.ok)
    let hasChanges := ¬ turn.changes.isEmpty
    let fs' := if hasChanges then turn.changes.foldl applyChange fs else fs
    let applyTrace := if hasChanges then turn.changes.map CommitStep.applied else []
    let postTrace :=
      if hasChanges then
        (st.postCommitHooks.filter (fun h => h.blocking)).map
          (fun h => CommitStep.postBlocking h.name h.ok) ++
        (st.postCommitHooks.filter (fun h => !h.blocking)).map
          (fun h => CommitStep.postConcurrent h.name h.ok)
      else []
    ({ st with currentTurn := none }, fs', preTrace ++ applyTrace ++ postTrace)

/-- Recognizer for the post-commit-hook steps of a trace. -/
def CommitStep.isPostHook : CommitStep → Bool
  | .postBlocking _ _ => true
  | .postConcurrent _ _ => true
  | _ => false

/-- Recognizer for the applied-change steps of a trace. -/
def CommitStep.isApplied : CommitStep → Bool
  | .applied _ => true
  | _ => false

/- ===================== Token-based compacting list store ================== -/

/-- A message as the compactor sees it: a role and flat string content. -/
structure Msg where
  role : String
  text : String
  deriving DecidableEq, Repr

/-- primable_tags (list_store.py lines 269-275). -/
def primableTags : List String :=
  ["<project-info>", "<supabase-report>", "<supabase-general-instructions>",
   "<supabase-integration-instructions>", "<environment-details>"]

/-- Substring containment on character lists (Python's `tag in text`). -/
def listHasInfix (needle : List Char) : List Char → Bool
  | [] => needle.isEmpty
  | c :: rest => List.isPrefixOf needle (c :: rest) || listHasInfix needle rest

/-- _message_contains_tag: substring containment in the message text. -/
def msgContainsTag (m : Msg) (tag : String) : Bool :=
  listHasInfix tag.data m.text.data

/-- A message matching any primable tag (the filter of
    _remove_primable_messages). -/
def isPrimable (m : Msg) : Bool := primableTags.any (msgContainsTag m)

/-- Token count of a message list for a synthetic per-message token counter
    `tc`; the counter is additive across messages, as the spec's "synthetic
    token counter" testable property assumes. -/
def listTokens (tc : Msg → Nat) (msgs : List Msg) : Nat := (msgs.map tc).sum

/-- _remove_primable_messages (list_store.py lines 352-360). -/
def removePrimable (msgs : List Msg) : List Msg :=
  msgs.filter (fun m => !(isPrimable m))

/-- The oldest-first eviction loop (list_store.py lines 441-448): while
    messages remain and the running count exceeds the target, remove the
    first message and subtract its token cost. -/
def evictOldest (tc : Msg → Nat) (target : Nat) :
    List Msg → Nat → Nat → List Msg × Nat × Nat
  | [], tokenCount, removed => ([], tokenCount, removed)
  | m :: rest, tokenCount, removed =>
    if target < tokenCount then evictOldest tc target rest (tokenCount - tc m) (removed + 1)
    else (m :: rest, tokenCount, removed)

/-- Result of _perform_standard_compaction: the (original, new, removed)
    triple it returns plus the message list it stores back. -/
structure CompactionOutcome where
  originalTokens : Nat
  newTokens : Nat
  removedCount : Nat
  msgs : List Msg
  deriving DecidableEq, Repr

/-- The index the eviction loop starts from: 1 when a leading system message
    is preserved, 0 otherwise (list_store.py lines 430-438). -/
def sysHead (msgs : List Msg) : Nat :=
  match msgs with
  | m :: _ => if m.role = "system" then 1 else 0
  | [] => 0

/-- _perform_standard_compaction (list_store.py lines 382-462).  The float
    compact_target_ratio is modelled as the exact rational num/den, so the
    target int(original * ratio) is original * num / den in Nat division. -/
def standardCompaction (tc : Msg → Nat) (threshold num den : Nat)
    (msgs : List Msg) : CompactionOutcome :=
  if msgs.isEmpty then ⟨0, 0, 0, msgs⟩
  else
    let original := listTokens tc msgs
    if original < threshold then ⟨original, original, 0, msgs⟩
    else
      let kept := removePrimable msgs
      let primRemoved := msgs.length - kept.length
      let tokenCount := listTokens tc kept
      let target := original * num / den
      if tokenCount ≤ target then ⟨original, tokenCount, primRemoved, kept⟩
      else
        let startIdx := sysHead kept
        let r := evictOldest tc target (kept.drop startIdx) tokenCount primRemoved
        ⟨original, r.2.1, r.2.2, kept.take startIdx ++ r.1⟩

/-- The _should_compact trigger after an rpush, with a fresh throttle window
    (first check for the key) and no other messages racing: nonempty list
    whose token count has reached the threshold (list_store.py lines
    326-350). -/
def shouldCompact (tc : Msg → Nat) (threshold : Nat) (msgs : List Msg) : Bool :=
  !msgs.isEmpty && threshold ≤ listTokens tc msgs

/-- rpush followed by the compaction check (list_store.py lines 466-473),
    with the compaction lock acquired (no concurrent compaction). -/
def rpushCompact (tc : Msg → Nat) (threshold num den : Nat)
    (msgs vals : List Msg) : List Msg :=
  let pushed := msgs ++ vals
  if shouldCompact tc threshold pushed then
    (standardCompaction tc threshold num den pushed).msgs
  else pushed

/- ================================ Event bus =============================== -/

/-- A synchronous callback object, identified by the integer the CPython
    hash of a function object derives from. -/
structure Cb where
  id : Nat
  deriving DecidableEq, Repr

/-- The hash-table slot of a callback in a small CPython set (table size 8,
    slot = hash mod 8). -/
def slotOf (c : Cb) : Nat := c.id % 8

/-- Insert into the slot-ordered table representation of a CPython set.
    Collision probing is not needed by the development: the scenarios keep
    slots distinct, where this placement is exact. -/
def pySetIns (c : Cb) : List Cb → List Cb
  | [] => [c]
  | x :: xs => if slotOf c < slotOf x then c :: x :: xs else x :: pySetIns c xs

/-- set.add: no-op on an already-present element, else insert at the slot
    position. -/
def pySetAdd (l : List Cb) (c : Cb) : List Cb :=
  if l.contains c then l else pySetIns c l

/-- The _sync_subscribers mapping, event type → subscriber set (iteration
    order = table order). -/
def emptyBus : Nat → List Cb := fun _ => []

/-- subscribe (event_bus.py lines 59-64). -/
def busSubscribe (subs : Nat → List Cb) (et : Nat) (cb : Cb) : Nat → List Cb :=
  fun e => if e = et then pySetAdd (subs et) cb else subs e

/-- publish (event_bus.py lines 89-101): the order in which the callbacks
    subscribed to `et` are invoked is the set's iteration order. -/
def busPublishOrder (subs : Nat → List Cb) (et : Nat) : List Cb := subs et

/-- A whole sequence of subscribe calls for one event type, in call order. -/
def subscribeAll (subs : Nat → List Cb) (et : Nat) (cbs : List Cb) : Nat → List Cb :=
  cbs.foldl (fun s c => busSubscribe s et c) subs

/- ==================== Orchestrator state and control flow ================= -/

/-- One entry of ToolState.tool_results (state_manager.py lines 61-105):
    result holds the formatted result for successes, error the message for
    failures. -/
structure ToolResultRec where
  tool : String
  toolId : String
  status : String
  result : String
  error : String
  params : List (String × String)
  deriving DecidableEq, Repr

/-- The ToolState counters and result list (state_manager.py lines 51-109). -/
structure ToolStateM where
  consecutiveToolFailures : Nat
  consecutiveCodeFailures : Nat
  toolResults : List ToolResultRec
  deriving DecidableEq, Repr

/-- TaskState (state_manager.py lines 7-40), restricted to id and status. -/
structure TaskStateM where
  id : Option String
  status : String
  deriving DecidableEq, Repr

/-- The agent state the circuit breaker reads and writes. -/
structure AgentStateM where
  task : TaskStateM
  tool : ToolStateM
  currentMessage : String
  deriving DecidableEq, Repr

/-- The diagnostic message of the circuit-breaker branch (agent.py lines
    330-334). -/
def tooManyMistakesText : String :=
  "Assistant has made too many consecutive mistakes. This may indicate a failure in the thought process or inability to use tools properly. Consider providing guidance on breaking down the task into smaller steps."

/-- Events the orchestrator model yields. -/
inductive AgentEvt
  | text (s : String)
  | toolReport (name toolId status : String)
  deriving DecidableEq, Repr

/-- reset_for_new_task (state_manager.py lines 120-129); the previous state
    is replaced wholesale. -/
def resetForNewTask (_st : AgentStateM) (taskId : String) : AgentStateM :=
  { task := { id := some taskId, status := "running" },
    tool := { consecutiveToolFailures := 0, consecutiveCodeFailures := 0, toolResults := [] },
    currentMessage := "" }

/-- Outcome of one entry into _recursively_process_messages: the state it
    leaves, the events it yields before dispatching anything, and which tool
    requests it goes on to dispatch. -/
structure RecursionOutcome where
  state : AgentStateM
  events : List AgentEvt
  dispatched : List String
  deriving DecidableEq, Repr

/-- The consecutive-mistakes guard at the head of
    _recursively_process_messages (agent.py lines 325-347): with four or more
    consecutive tool failures or code-check failures, yield the diagnostic,
    fail the task, zero both counters and return without dispatching; the
    non-tripped continuation (model call, parsing, tool dispatch) is
    abstracted as dispatching the pending tool requests. -/
def recursionGuard (st : AgentStateM) (pendingTools : List String) : RecursionOutcome :=
  if 4 ≤ st.tool.consecutiveToolFailures ∨ 4 ≤ st.tool.consecutiveCodeFailures then
    { state := { st with
        task := { st.task with status := "failed" },
        tool := { st.tool with consecutiveToolFailures := 0, consecutiveCodeFailures := 0 } },
      events := [.text tooManyMistakesText],
      dispatched := [] }
  else
    { state := st, events := [], dispatched := pendingTools }

/-- The follow-up-question scan over the turn's tool results (agent.py lines
    404-417): the first successfully resolved ask-followup-question, if
    any. -/
def findFollowup (rs : List ToolResultRec) : Option ToolResultRec :=
  rs.find? (fun r => r.tool == "ask-followup-question" && r.status == "success")

/-- One line of the tool-results message (agent.py lines 420-426). -/
def formatToolResult (r : ToolResultRec) : String :=
  "[" ++ r.tool ++
    (match r.params.lookup "path" with
     | some p => " for " ++ p
     | none => "") ++ " " ++
    (if r.status == "success" then "Success" else "Error") ++ "]\n" ++
    (if r.status == "success" then r.result else r.error)

/-- The joined tool-results message. -/
def formatToolResultsMessage (rs : List ToolResultRec) : String :=
  String.intercalate "\n\n" (rs.map formatToolResult)

/-- What processing the turn's tool results does (agent.py lines 402-464). -/
structure ResultsOutcome where
  events : List AgentEvt
  memoryAdds : List String
  committed : Bool
  taskStatus : Option String
  clearedResults : Bool
  recursed : Bool
  deriving DecidableEq, Repr

/-- The tool-result processing block of _recursively_process_messages
    (agent.py lines 402-464): a successful ask-followup-question streams the
    question, completes the task and returns at once; otherwise the results
    are formatted into one message, stored, the turn committed, tool events
    emitted, the result list cleared and the recursion continued. -/
def processToolResults (rs : List ToolResultRec) : ResultsOutcome :=
  if rs.isEmpty then
    { events := [], memoryAdds := [], committed := false,
      taskStatus := some "completed", clearedResults := false, recursed := false }
  else
    match findFollowup rs with
    | some r =>
      { events := [.text r.result], memoryAdds := [], committed := false,
        taskStatus := some "completed", clearedResults := false, recursed := false }
    | none =>
      { events := rs.map (fun r => AgentEvt.toolReport r.tool r.toolId
          (if r.status == "success" then "completed" else "failed")),
        memoryAdds := [formatToolResultsMessage rs],
        committed := true, taskStatus := none, clearedResults := true, recursed := true }

/-- The success path of _handle_tool_result (agent.py lines 660-690): the
    follow-up question is appended to the accumulating streaming message and
    becomes its own formatted result; every other tool gets the ordinary
    "Result:" wrapper and leaves the message alone.  Returns (new streaming
    message, formatted result). -/
def handleToolSuccess (name execResult currentMessage : String) : String × String :=
  if name == "ask-followup-question" then
    ((if currentMessage == "" then execResult
      else currentMessage ++ "\n\n" ++ execResult), execResult)
  else (currentMessage, "Result:\n" ++ execResult)

/- ========================= Concrete example values ======================== -/

/-- A manager with cwd /w and an active empty turn. -/
def fomEx : FomState := ⟨"/w", some ⟨"t1", "/w", []⟩, [], []⟩

/-- An example turn holding two recorded changes. -/
def fomTurn2 : WriteTurnM :=
  ⟨"t2", "/w",
   [⟨"/w/a.txt", .write, some "hello", []⟩,
    ⟨"/w/b.txt", .delete, none, []⟩]⟩

/-- A manager with the active turn fomTurn2 and one hook of each kind. -/
def fomEx2 : FomState :=
  ⟨"/w", some fomTurn2,
   [⟨"pre1", true, true⟩],
   [⟨"code_check", true, true⟩, ⟨"backup", false, true⟩]⟩

/-- A manager with cwd /w, an active empty turn, and a filesystem-facing
    example set below. -/
def fsEx : Fs := [("/w/src.txt", "s"), ("/w/dst.txt", "d")]

/-- Discriminator used to compare raised error kinds. -/
def isFileNotFoundErr : Option PyErr → Bool
  | some (.fileNotFound _) => true
  | _ => false

/-- Synthetic token counter: one token per character of content. -/
def tcLen : Msg → Nat := fun m => m.text.length

/-- Twenty plain six-token messages, none primable, none with system role. -/
def msgs20 : List Msg := List.replicate 20 ⟨"user", "aaaaaa"⟩

/- ================================ Theorems =============================== -/

/-- C8: feeding the streaming parser the input
    <write-to-file><path>a.txt</path><content>x<y>z</content></write-to-file>
    yields exactly one Tool event with status executing, whose params map
    path to "a.txt" and content to "x<y>z"; the unrecognized inner tag <y>
    does not truncate the content value. -/
theorem c8_write_file_nested_tag_single_executing_event :
    executingEvents (runChunks
      ["<write-to-file><path>a.txt</path><content>x<y>z</content></write-to-file>".data]) =
      [.tool "write-to-file" 0 .executing
        (some [("path", "a.txt".data), ("content", "x<y>z".data)])] := by
  decide

/-- C9 counterexample: the streaming parser records the parameter value
    " a.txt " exactly as it appears between the tags; it is not trimmed of
    surrounding whitespace, contradicting the claim that recorded values are
    the trimmed raw text. -/
theorem c9_value_not_trimmed_counterexample :
    executingEvents (runChunks
      ["<write-to-file><path> a.txt </path></write-to-file>".data]) =
      [.tool "write-to-file" 0 .executing (some [("path", " a.txt ".data)])] ∧
    pyStrip " a.txt ".data = "a.txt".data ∧
    " a.txt ".data ≠ "a.txt".data := by
  decide

/-- C5 counterexample: subscribing the callback with id 13 (hash slot 5) and
    then the callback with id 11 (hash slot 3) makes publish invoke them in
    slot order (11 before 13), not in subscription order. -/
theorem c5_not_insertion_order_counterexample :
    busPublishOrder (subscribeAll emptyBus 0 [⟨13⟩, ⟨11⟩]) 0 = [⟨11⟩, ⟨13⟩] ∧
    busPublishOrder (subscribeAll emptyBus 0 [⟨13⟩, ⟨11⟩]) 0 ≠ [⟨13⟩, ⟨11⟩] := by
  decide

/-- C7 counterexample: the path a/.lovable/../b has the protected directory
    name .lovable as a component, yet write_file accepts it (normalization
    removes the component before the check) and records a change. -/
theorem c7_component_normalized_away_counterexample :
    (strSplitSep '/' "a/.lovable/../b").contains ".lovable" = true ∧
    (writeFile fomEx "a/.lovable/../b" "x" []).2 = none ∧
    ((writeFile fomEx "a/.lovable/../b" "x" []).1.currentTurn.map
      (fun t => t.changes.length)) = some 1 := by
  decide

/-- C10 counterexample: deleting .lovable/missing.txt, a path that does not
    exist on disk, raises the protected-path RuntimeError, not
    FileNotFoundError, because the protection check precedes the existence
    check. -/
theorem c10_protected_beats_missing_counterexample :
    fsExists [] (resolvePath "/w" ".lovable/missing.txt") = false ∧
    (deleteFile fomEx [] ".lovable/missing.txt" []).2 =
      some (.runtimeError "Cannot delete protected file/path: .lovable/missing.txt") ∧
    isFileNotFoundErr (deleteFile fomEx [] ".lovable/missing.txt" []).2 = false := by
  decide

/-- C3 counterexample: pushing twenty six-token messages past threshold 10
    with ratio 1/2 triggers compaction, but the recomputed token count of the
    compacted list is 60, far above threshold * ratio = 5 even allowing one
    message's token cost (6): the eviction target is original * ratio, not
    threshold * ratio. -/
theorem c3_target_is_original_ratio_counterexample :
    shouldCompact tcLen 10 msgs20 = true ∧
    msgs20.map tcLen = List.replicate 20 6 ∧
    (standardCompaction tcLen 10 1 2 msgs20).newTokens = 60 ∧
    listTokens tcLen (rpushCompact tcLen 10 1 2 [] msgs20) = 60 ∧
    10 * 1 / 2 + 6 < 60 := by
  decide

/-- C4: whenever either consecutive-failure counter has reached four at the
    head of a recursive processing step, the orchestrator dispatches no
    tools, emits the single diagnostic text event, marks the task failed and
    zeroes both counters, leaving the task failed. -/
theorem c4_circuit_breaker_trips_at_four (st : AgentStateM) (pending : List String)
    (h : 4 ≤ st.tool.consecutiveToolFailures ∨ 4 ≤ st.tool.consecutiveCodeFailures) :
    (recursionGuard st pending).dispatched = [] ∧
    (recursionGuard st pending).events = [.text tooManyMistakesText] ∧
    (recursionGuard st pending).state.task.status = "failed" ∧
    (recursionGuard st pending).state.tool.consecutiveToolFailures = 0 ∧
    (recursionGuard st pending).state.tool.consecutiveCodeFailures = 0 := by
  simp [recursionGuard, if_pos h]

/-- Witness for C4 at a concrete state with four consecutive tool
    failures. -/
theorem c4_circuit_breaker_trips_at_four_witness :
    (4 ≤ (AgentStateM.mk ⟨some "t", "running"⟩ ⟨4, 0, []⟩ "").tool.consecutiveToolFailures ∨
     4 ≤ (AgentStateM.mk ⟨some "t", "running"⟩ ⟨4, 0, []⟩ "").tool.consecutiveCodeFailures) ∧
    ((recursionGuard (AgentStateM.mk ⟨some "t", "running"⟩ ⟨4, 0, []⟩ "") ["read-file"]).dispatched = [] ∧
     (recursionGuard (AgentStateM.mk ⟨some "t", "running"⟩ ⟨4, 0, []⟩ "") ["read-file"]).events = [.text tooManyMistakesText] ∧
     (recursionGuard (AgentStateM.mk ⟨some "t", "running"⟩ ⟨4, 0, []⟩ "") ["read-file"]).state.task.status = "failed" ∧
     (recursionGuard (AgentStateM.mk ⟨some "t", "running"⟩ ⟨4, 0, []⟩ "") ["read-file"]).state.tool.consecutiveToolFailures = 0 ∧
     (recursionGuard (AgentStateM.mk ⟨some "t", "running"⟩ ⟨4, 0, []⟩ "") ["read-file"]).state.tool.consecutiveCodeFailures = 0) :=
  ⟨Or.inl (by decide),
   c4_circuit_breaker_trips_at_four (AgentStateM.mk ⟨some "t", "running"⟩ ⟨4, 0, []⟩ "")
     ["read-file"] (Or.inl (by decide))⟩

/-- C6: when the turn's tool results contain a successfully resolved
    ask-followup-question, the orchestrator streams only that question as a
    text event, completes the task and returns, with no memory write, no
    commit, no sibling tool-result events and no recursion; and the handler
    appends the question to the accumulating streaming message instead of
    wrapping it as an ordinary result. -/
theorem c6_followup_question_short_circuits (rs : List ToolResultRec)
    (r : ToolResultRec) (msg : String) (h : findFollowup rs = some r) :
    processToolResults rs =
      { events := [.text r.result], memoryAdds := [], committed := false,
        taskStatus := some "completed", clearedResults := false, recursed := false } ∧
    handleToolSuccess "ask-followup-question" r.result msg =
      ((if msg == "" then r.result else msg ++ "\n\n" ++ r.result), r.result) := by
  constructor
  · have hne : rs.isEmpty = false := by
      cases rs with
      | nil => simp [findFollowup] at h
      | cons a l => rfl
    simp [processToolResults, hne, h]
  · simp [handleToolSuccess]

/-- Witness for C6 at a one-element result list holding a successful
    follow-up question. -/
theorem c6_followup_question_short_circuits_witness :
    findFollowup [⟨"ask-followup-question", "id1", "success", "Which theme?", "", []⟩] =
      some ⟨"ask-followup-question", "id1", "success", "Which theme?", "", []⟩ ∧
    (processToolResults [⟨"ask-followup-question", "id1", "success", "Which theme?", "", []⟩] =
      { events := [.text "Which theme?"], memoryAdds := [], committed := false,
        taskStatus := some "completed", clearedResults := false, recursed := false } ∧
     handleToolSuccess "ask-followup-question" "Which theme?" "hello" =
      ((if "hello" == "" then "Which theme?" else "hello" ++ "\n\n" ++ "Which theme?"),
       "Which theme?")) :=
  ⟨by decide,
   c6_followup_question_short_circuits
     [⟨"ask-followup-question", "id1", "success", "Which theme?", "", []⟩]
     ⟨"ask-followup-question", "id1", "success", "Which theme?", "", []⟩ "hello" (by decide)⟩

/-- Partitioning a list by a Bool predicate preserves total length. -/
theorem length_filter_partition {α : Type} (l : List α) (p : α → Bool) :
    (l.filter p).length + (l.filter (fun a => !(p a))).length = l.length := by
  induction l with
  | nil => rfl
  | cons a t ih =>
    cases hpa : p a <;> simp [List.filter_cons, hpa] <;> omega

/-- Pre-commit-hook steps are not post-commit-hook steps. -/
theorem filter_post_map_pre (l : List HookM) :
    (l.map (fun hk => CommitStep.preHook hk.name hk.ok)).filter
      (fun step => step.isPostHook) = [] := by
  induction l with
  | nil => rfl
  | cons a t ih => simp [List.filter_cons, CommitStep.isPostHook, ih]

/-- Applied-change steps are not post-commit-hook steps. -/
theorem filter_post_map_applied (l : List FileChangeM) :
    (l.map CommitStep.applied).filter (fun step => step.isPostHook) = [] := by
  induction l with
  | nil => rfl
  | cons a t ih => simp [List.filter_cons, CommitStep.isPostHook, ih]

/-- Blocking post-commit-hook steps all are post-commit-hook steps. -/
theorem filter_post_map_blocking (l : List HookM) :
    (l.map (fun hk => CommitStep.postBlocking hk.name hk.ok)).filter
      (fun step => step.isPostHook) =
      l.map (fun hk => CommitStep.postBlocking hk.name hk.ok) := by
  induction l with
  | nil => rfl
  | cons a t ih => simp [List.filter_cons, CommitStep.isPostHook, ih]

/-- Concurrent post-commit-hook steps all are post-commit-hook steps. -/
theorem filter_post_map_concurrent (l : List HookM) :
    (l.map (fun hk => CommitStep.postConcurrent hk.name hk.ok)).filter
      (fun step => step.isPostHook) =
      l.map (fun hk => CommitStep.postConcurrent hk.name hk.ok) := by
  induction l with
  | nil => rfl
  | cons a t ih => simp [List.filter_cons, CommitStep.isPostHook, ih]

/-- C1: with an active turn, commit_turn produces the trace that runs every
    pre-commit hook first, then (only if the turn recorded at least one
    change) applies every change in log order to the filesystem before any
    post-commit hook, then runs the post-commit hooks (blocking first);
    the post-commit hooks run exactly when a change existed, and with zero
    changes the trace is the pre-commit hooks alone. -/
theorem c1_commit_applies_changes_before_post_hooks (st : FomState) (fs : Fs)
    (turn : WriteTurnM) (h : st.currentTurn = some turn) :
    commitTurn st fs =
      ({ st with currentTurn := none },
       turn.changes.foldl applyChange fs,
       st.writeHooks.map (fun hk => CommitStep.preHook hk.name hk.ok) ++
         (if turn.changes.isEmpty then [] else
           turn.changes.map CommitStep.applied ++
             ((st.postCommitHooks.filter (fun hk => hk.blocking)).map
                (fun hk => CommitStep.postBlocking hk.name hk.ok) ++
              (st.postCommitHooks.filter (fun hk => !hk.blocking)).map
                (fun hk => CommitStep.postConcurrent hk.name hk.ok)))) ∧
    ((commitTurn st fs).2.2.filter (fun step => step.isPostHook)).length =
      (if turn.changes.isEmpty then 0 else st.postCommitHooks.length) ∧
    (turn.changes.isEmpty = true →
      (commitTurn st fs).2.2 =
        st.writeHooks.map (fun hk => CommitStep.preHook hk.name hk.ok)) := by
  have hmain : commitTurn st fs =
      ({ st with currentTurn := none },
       turn.changes.foldl applyChange fs,
       st.writeHooks.map (fun hk => CommitStep.preHook hk.name hk.ok) ++
         (if turn.changes.isEmpty then [] else
           turn.changes.map CommitStep.applied ++
             ((st.postCommitHooks.filter (fun hk => hk.blocking)).map
                (fun hk => CommitStep.postBlocking hk.name hk.ok) ++
              (st.postCommitHooks.filter (fun hk => !hk.blocking)).map
                (fun hk => CommitStep.postConcurrent hk.name hk.ok)))) := by
    rw [commitTurn, h]
    by_cases he : turn.changes.isEmpty
    · have hnil : turn.changes = [] := List.isEmpty_iff.mp he
      simp [he, hnil]
    · simp [he]
  refine ⟨hmain, ?_, ?_⟩
  · rw [hmain]
    cases hx : turn.changes.isEmpty with
    | true => simp [hx, filter_post_map_pre]
    | false =>
      simp [hx, List.filter_append, filter_post_map_pre, filter_post_map_applied,
        filter_post_map_blocking, filter_post_map_concurrent]
      have := length_filter_partition st.postCommitHooks (fun hk => hk.blocking)
      simp at this
      omega
  · intro he
    rw [hmain]
    simp [he]

/-- Witness for C1 at a manager with an active two-change turn, one
    pre-commit hook and two post-commit hooks. -/
theorem c1_commit_applies_changes_before_post_hooks_witness :
    fomEx2.currentTurn = some fomTurn2 ∧
    (commitTurn fomEx2 fsEx =
      ({ fomEx2 with currentTurn := none },
       fomTurn2.changes.foldl applyChange fsEx,
       fomEx2.writeHooks.map (fun hk => CommitStep.preHook hk.name hk.ok) ++
         (if fomTurn2.changes.isEmpty then [] else
           fomTurn2.changes.map CommitStep.applied ++
             ((fomEx2.postCommitHooks.filter (fun hk => hk.blocking)).map
                (fun hk => CommitStep.postBlocking hk.name hk.ok) ++
              (fomEx2.postCommitHooks.filter (fun hk => !hk.blocking)).map
                (fun hk => CommitStep.postConcurrent hk.name hk.ok)))) ∧
     ((commitTurn fomEx2 fsEx).2.2.filter (fun step => step.isPostHook)).length =
       (if fomTurn2.changes.isEmpty then 0 else fomEx2.postCommitHooks.length) ∧
     (fomTurn2.changes.isEmpty = true →
       (commitTurn fomEx2 fsEx).2.2 =
         fomEx2.writeHooks.map (fun hk => CommitStep.preHook hk.name hk.ok))) :=
  ⟨rfl, c1_commit_applies_changes_before_post_hooks fomEx2 fsEx fomTurn2 rfl⟩

/-- C7 amended: for every path whose normalized form is a protected file or
    has a protected directory name among its components, write_file,
    delete_file and rename_file (the path as source or as destination) raise
    an error and leave the manager — in particular the active turn's change
    list — unchanged, whatever the turn state. -/
theorem c7_protected_paths_rejected_before_recording (st : FomState) (fs : Fs)
    (p q content : String) (md : List (String × String))
    (hp : isProtectedPath p = true) :
    ((writeFile st p content md).2.isSome = true ∧ (writeFile st p content md).1 = st) ∧
    ((deleteFile st fs p md).2.isSome = true ∧ (deleteFile st fs p md).1 = st) ∧
    ((renameFile st fs p q md).2.isSome = true ∧ (renameFile st fs p q md).1 = st) ∧
    ((renameFile st fs q p md).2.isSome = true ∧ (renameFile st fs q p md).1 = st) := by
  refine ⟨?_, ?_, ?_, ?_⟩
  · cases hT : st.currentTurn with
    | none => simp [writeFile, hT]
    | some t => simp [writeFile, hT, hp]
  · cases hT : st.currentTurn with
    | none => simp [deleteFile, hT]
    | some t => simp [deleteFile, hT, hp]
  · cases hT : st.currentTurn with
    | none => simp [renameFile, hT]
    | some t => simp [renameFile, hT, hp]
  · cases hT : st.currentTurn with
    | none => simp [renameFile, hT]
    | some t =>
      by_cases hq : isProtectedPath q = true
      · simp [renameFile, hT, hq]
      · simp [renameFile, hT, hq, hp]

/-- Witness for C7 at the protected path .lovable/x with an active empty
    turn. -/
theorem c7_protected_paths_rejected_before_recording_witness :
    isProtectedPath ".lovable/x" = true ∧
    (((writeFile fomEx ".lovable/x" "c" []).2.isSome = true ∧
      (writeFile fomEx ".lovable/x" "c" []).1 = fomEx) ∧
     ((deleteFile fomEx fsEx ".lovable/x" []).2.isSome = true ∧
      (deleteFile fomEx fsEx ".lovable/x" []).1 = fomEx) ∧
     ((renameFile fomEx fsEx ".lovable/x" "ok.txt" []).2.isSome = true ∧
      (renameFile fomEx fsEx ".lovable/x" "ok.txt" []).1 = fomEx) ∧
     ((renameFile fomEx fsEx "ok.txt" ".lovable/x" []).2.isSome = true ∧
      (renameFile fomEx fsEx "ok.txt" ".lovable/x" []).1 = fomEx)) :=
  ⟨by decide,
   c7_protected_paths_rejected_before_recording fomEx fsEx ".lovable/x" "ok.txt" "c" []
     (by decide)⟩

/-- C10 amended: with an active turn and non-protected paths, delete_file of
    a path missing on disk raises FileNotFoundError, rename_file of a
    missing source raises FileNotFoundError and rename_file onto an existing
    destination raises FileExistsError, in every case leaving the manager —
    and so the turn's change list — unchanged; for protected paths the
    earlier protection check raises RuntimeError instead. -/
theorem c10_existence_validated_at_record_time (st : FomState) (fs : Fs)
    (turn : WriteTurnM) (pDel s1 d1 s2 d2 : String) (md : List (String × String))
    (hT : st.currentTurn = some turn)
    (hpD : isProtectedPath pDel = false)
    (heD : fsExists fs (resolvePath st.cwd pDel) = false)
    (hp1s : isProtectedPath s1 = false) (hp1d : isProtectedPath d1 = false)
    (he1 : fsExists fs (resolvePath st.cwd s1) = false)
    (hp2s : isProtectedPath s2 = false) (hp2d : isProtectedPath d2 = false)
    (he2s : fsExists fs (resolvePath st.cwd s2) = true)
    (he2d : fsExists fs (resolvePath st.cwd d2) = true) :
    deleteFile st fs pDel md =
      (st, some (.fileNotFound ("File not found: " ++ resolvePath st.cwd pDel))) ∧
    renameFile st fs s1 d1 md =
      (st, some (.fileNotFound ("Source file not found: " ++ resolvePath st.cwd s1))) ∧
    renameFile st fs s2 d2 md =
      (st, some (.fileExists ("Destination file already exists: " ++ resolvePath st.cwd d2))) := by
  refine ⟨?_, ?_, ?_⟩
  · simp [deleteFile, hT, hpD, heD]
  · simp [renameFile, hT, hp1s, hp1d, he1]
  · simp [renameFile, hT, hp2s, hp2d, he2s, he2d]

/-- Witness for C10: a missing gone.txt for delete and rename, and the
    existing src.txt/dst.txt pair for the destination collision. -/
theorem c10_existence_validated_at_record_time_witness :
    fomEx.currentTurn = some ⟨"t1", "/w", []⟩ ∧
    (deleteFile fomEx fsEx "gone.txt" [] =
      (fomEx, some (.fileNotFound ("File not found: " ++ resolvePath "/w" "gone.txt"))) ∧
     renameFile fomEx fsEx "gone2.txt" "new.txt" [] =
      (fomEx, some (.fileNotFound ("Source file not found: " ++ resolvePath "/w" "gone2.txt"))) ∧
     renameFile fomEx fsEx "src.txt" "dst.txt" [] =
      (fomEx, some (.fileExists ("Destination file already exists: " ++ resolvePath "/w" "dst.txt")))) :=
  ⟨rfl,
   c10_existence_validated_at_record_time fomEx fsEx ⟨"t1", "/w", []⟩
     "gone.txt" "gone2.txt" "new.txt" "src.txt" "dst.txt" [] rfl
     (by decide) (by decide) (by decide) (by decide) (by decide)
     (by decide) (by decide) (by decide) (by decide)⟩

/-- Membership after a slot-ordered insertion. -/
theorem mem_pySetIns (c a : Cb) (l : List Cb) :
    c ∈ pySetIns a l ↔ c = a ∨ c ∈ l := by
  induction l with
  | nil => simp [pySetIns]
  | cons x xs ih =>
    by_cases hs : slotOf a < slotOf x
    · simp [pySetIns, hs]
    · simp [pySetIns, hs, ih]
      tauto

/-- Slot-ordered insertion of a new element keeps the table duplicate
    free. -/
theorem nodup_pySetIns (a : Cb) (l : List Cb) (hl : l.Nodup) (ha : a ∉ l) :
    (pySetIns a l).Nodup := by
  induction l with
  | nil => simp [pySetIns]
  | cons x xs ih =>
    by_cases hs : slotOf a < slotOf x
    · simp only [pySetIns, if_pos hs]
      exact List.Nodup.cons (by simpa using ha) hl
    · simp only [pySetIns, if_neg hs]
      refine List.Nodup.cons ?_ (ih (List.Nodup.of_cons hl) ?_)
      · intro hx
        rcases (mem_pySetIns x a xs).mp hx with h1 | h2
        · exact ha (h1 ▸ List.mem_cons_self x xs)
        · exact (List.nodup_cons.mp hl).1 h2
      · intro hmem
        exact ha (List.mem_cons_of_mem x hmem)

/-- Membership after set.add. -/
theorem mem_pySetAdd (c a : Cb) (l : List Cb) :
    c ∈ pySetAdd l a ↔ c = a ∨ c ∈ l := by
  by_cases hm : a ∈ l
  · have hc : l.contains a = true := by simpa using hm
    simp only [pySetAdd, if_pos hc]
    constructor
    · exact Or.inr
    · rintro (rfl | h)
      exacts [hm, h]
  · have hc : ¬ l.contains a = true := by simpa using hm
    simp only [pySetAdd, if_neg hc]
    exact mem_pySetIns c a l

/-- set.add keeps the table duplicate free. -/
theorem nodup_pySetAdd (a : Cb) (l : List Cb) (hl : l.Nodup) :
    (pySetAdd l a).Nodup := by
  by_cases hm : a ∈ l
  · have hc : l.contains a = true := by simpa using hm
    simpa only [pySetAdd, if_pos hc] using hl
  · have hc : ¬ l.contains a = true := by simpa using hm
    simpa only [pySetAdd, if_neg hc] using nodup_pySetIns a l hl hm

/-- Membership in the folded sequence of set.add calls. -/
theorem mem_foldl_pySetAdd (cbs : List Cb) :
    ∀ (l : List Cb) (c : Cb), c ∈ cbs.foldl pySetAdd l ↔ c ∈ l ∨ c ∈ cbs := by
  induction cbs with
  | nil => simp
  | cons a t ih =>
    intro l c
    simp only [List.foldl_cons, ih, mem_pySetAdd, List.mem_cons]
    tauto

/-- The folded sequence of set.add calls keeps the table duplicate free. -/
theorem nodup_foldl_pySetAdd (cbs : List Cb) :
    ∀ (l : List Cb), l.Nodup → (cbs.foldl pySetAdd l).Nodup := by
  induction cbs with
  | nil => exact fun l hl => hl
  | cons a t ih =>
    intro l hl
    exact ih _ (nodup_pySetAdd a l hl)

/-- Subscribing a sequence of callbacks for one event type touches exactly
    that event type's set, via consecutive set.add calls. -/
theorem subscribeAll_apply (cbs : List Cb) :
    ∀ (subs : Nat → List Cb) (et : Nat),
      subscribeAll subs et cbs et = cbs.foldl pySetAdd (subs et) := by
  induction cbs with
  | nil => intro subs et; rfl
  | cons a t ih =>
    intro subs et
    show subscribeAll (busSubscribe subs et a) et t et = _
    rw [ih]
    simp [busSubscribe]

/-- C5 amended: within one publish call, every distinct subscribed callback
    is invoked exactly once (the subscriber structure is a set: the iteration
    order is its hash-slot order, not subscription order). -/
theorem c5_publish_invokes_each_subscriber_once (cbs : List Cb) (et : Nat) :
    (∀ c, c ∈ busPublishOrder (subscribeAll emptyBus et cbs) et ↔ c ∈ cbs) ∧
    (busPublishOrder (subscribeAll emptyBus et cbs) et).Nodup := by
  constructor
  · intro c
    rw [busPublishOrder, subscribeAll_apply, mem_foldl_pySetAdd]
    simp [emptyBus]
  · rw [busPublishOrder, subscribeAll_apply]
    exact nodup_foldl_pySetAdd cbs _ (by simp [emptyBus])

/-- The eviction loop removes an initial run of the list it is given. -/
theorem evictOldest_drop (tc : Msg → Nat) (target : Nat) :
    ∀ (l : List Msg) (c r : Nat), ∃ k, (evictOldest tc target l c r).1 = l.drop k := by
  intro l
  induction l with
  | nil => intro c r; exact ⟨0, rfl⟩
  | cons m rest ih =>
    intro c r
    by_cases hc : target < c
    · obtain ⟨k, hk⟩ := ih (c - tc m) (r + 1)
      exact ⟨k + 1, by simpa [evictOldest, hc] using hk⟩
    · exact ⟨0, by simp [evictOldest, hc]⟩

/-- The running count of the eviction loop tracks the tokens of the
    surviving messages (plus the tokens of the preserved head). -/
theorem evictOldest_count (tc : Msg → Nat) (target : Nat) :
    ∀ (l : List Msg) (c r base : Nat), c = base + listTokens tc l →
      (evictOldest tc target l c r).2.1 =
        base + listTokens tc (evictOldest tc target l c r).1 := by
  intro l
  induction l with
  | nil => intro c r base h; simpa [evictOldest, listTokens] using h
  | cons m rest ih =>
    intro c r base h
    by_cases hc : target < c
    · simp only [evictOldest, if_pos hc]
      refine ih (c - tc m) (r + 1) base ?_
      have : c = base + (tc m + listTokens tc rest) := by
        simpa [listTokens] using h
      omega
    · simpa [evictOldest, hc] using h

/-- The eviction loop stops under the target or exhausts the list. -/
theorem evictOldest_le_or_nil (tc : Msg → Nat) (target : Nat) :
    ∀ (l : List Msg) (c r : Nat),
      (evictOldest tc target l c r).2.1 ≤ target ∨
      (evictOldest tc target l c r).1 = [] := by
  intro l
  induction l with
  | nil =>
    intro c r
    by_cases hc : c ≤ target
    · exact Or.inl (by simpa [evictOldest] using hc)
    · exact Or.inr rfl
  | cons m rest ih =>
    intro c r
    by_cases hc : target < c
    · simpa [evictOldest, hc] using ih (c - tc m) (r + 1)
    · exact Or.inl (by simp [evictOldest, hc]; omega)

/-- Messages surviving the primable strip are not primable. -/
theorem mem_removePrimable {m : Msg} {msgs : List Msg}
    (h : m ∈ removePrimable msgs) : isPrimable m = false := by
  have := (List.mem_filter.mp h).2
  simpa using this

/-- Tokens are additive over list concatenation. -/
theorem listTokens_append (tc : Msg → Nat) (a b : List Msg) :
    listTokens tc (a ++ b) = listTokens tc a + listTokens tc b := by
  simp [listTokens]

/-- The system-head index never exceeds the list length. -/
theorem sysHead_le_length (msgs : List Msg) : sysHead msgs ≤ msgs.length := by
  cases msgs with
  | nil => simp [sysHead]
  | cons m rest =>
    by_cases hm : m.role = "system" <;> simp [sysHead, hm]

/-- C3 amended: whenever a push drives the token count to the threshold and
    compaction runs, the result strips every primable message (all primable
    content is removed before any non-primable message is evicted), evicts
    only oldest-first from the primable-free list while preserving the
    optional leading system message, reports the recomputed token count of
    the stored list, and that count is at most original_tokens * ratio —
    not threshold * ratio — unless only the preserved system head is left. -/
theorem c3_compaction_strips_primable_and_hits_original_ratio
    (tc : Msg → Nat) (threshold num den : Nat) (msgs : List Msg)
    (hth : threshold ≤ listTokens tc msgs) (hne : msgs ≠ []) :
    (standardCompaction tc threshold num den msgs).msgs.all
      (fun m => !(isPrimable m)) = true ∧
    (standardCompaction tc threshold num den msgs).msgs.take
        (sysHead (removePrimable msgs)) =
      (removePrimable msgs).take (sysHead (removePrimable msgs)) ∧
    ((standardCompaction tc threshold num den msgs).msgs.drop
        (sysHead (removePrimable msgs))).isSuffixOf
      ((removePrimable msgs).drop (sysHead (removePrimable msgs))) = true ∧
    (standardCompaction tc threshold num den msgs).newTokens =
      listTokens tc (standardCompaction tc threshold num den msgs).msgs ∧
    ((standardCompaction tc threshold num den msgs).newTokens ≤
        listTokens tc msgs * num / den ∨
      (standardCompaction tc threshold num den msgs).msgs =
        (removePrimable msgs).take (sysHead (removePrimable msgs))) := by
  have hne' : msgs.isEmpty = false := by
    cases msgs with
    | nil => exact absurd rfl hne
    | cons a l => rfl
  have hlt : ¬ listTokens tc msgs < threshold := by omega
  by_cases hcase : listTokens tc (removePrimable msgs) ≤ listTokens tc msgs * num / den
  · have hres : standardCompaction tc threshold num den msgs =
        ⟨listTokens tc msgs, listTokens tc (removePrimable msgs),
         msgs.length - (removePrimable msgs).length, removePrimable msgs⟩ := by
      rw [standardCompaction]
      simp [hne', hlt, hcase]
    rw [hres]
    refine ⟨?_, rfl, ?_, rfl, Or.inl hcase⟩
    · rw [List.all_eq_true]
      intro m hm
      simp [mem_removePrimable hm]
    · rw [List.isSuffixOf_iff_suffix]
  · set kept := removePrimable msgs with hkept
    set target := listTokens tc msgs * num / den with htarget
    set s := sysHead kept with hs
    set r := evictOldest tc target (kept.drop s) (listTokens tc kept)
      (msgs.length - kept.length) with hr
    have hres : standardCompaction tc threshold num den msgs =
        ⟨listTokens tc msgs, r.2.1, r.2.2, kept.take s ++ r.1⟩ := by
      rw [standardCompaction]
      simp only [hne', Bool.false_eq_true, if_false, hlt, ← hkept, ← htarget, ← hs, ← hr]
      simp [hcase]
    obtain ⟨k, hk⟩ := evictOldest_drop tc target (kept.drop s) (listTokens tc kept)
      (msgs.length - kept.length)
    have hslen : s ≤ kept.length := sysHead_le_length kept
    have htakelen : (kept.take s).length = s := by
      simp [List.length_take]
      omega
    rw [hres]
    refine ⟨?_, ?_, ?_, ?_, ?_⟩
    · rw [← hr] at hk
      rw [List.all_eq_true]
      intro m hm
      rcases List.mem_append.mp hm with hm1 | hm2
      · simp [mem_removePrimable (List.mem_of_mem_take hm1)]
      · rw [hk] at hm2
        have : m ∈ kept := List.mem_of_mem_drop (List.mem_of_mem_drop hm2)
        simp [mem_removePrimable this]
    · exact List.take_left' htakelen
    · rw [← hr] at hk
      have hdrop : (kept.take s ++ r.1).drop s = r.1 := List.drop_left' htakelen
      rw [hdrop, List.isSuffixOf_iff_suffix, hk]
      exact (List.drop_suffix k (kept.drop s))
    · have hsplit : listTokens tc kept =
          listTokens tc (kept.take s) + listTokens tc (kept.drop s) := by
        conv_lhs => rw [← List.take_append_drop s kept]
        exact listTokens_append tc _ _
      have hcnt := evictOldest_count tc target (kept.drop s) (listTokens tc kept)
        (msgs.length - kept.length) (listTokens tc (kept.take s)) hsplit
      rw [← hr] at hcnt
      rw [hcnt, listTokens_append]
    · rcases evictOldest_le_or_nil tc target (kept.drop s) (listTokens tc kept)
        (msgs.length - kept.length) with hle | hnil
      · rw [← hr] at hle
        exact Or.inl hle
      · rw [← hr] at hnil
        rw [hnil]
        exact Or.inr (by simp)

/-- Witness for C3 at threshold 10, ratio 1/2 and twenty six-token
    messages. -/
theorem c3_compaction_strips_primable_witness :
    (10 ≤ listTokens tcLen msgs20 ∧ msgs20 ≠ []) ∧
    ((standardCompaction tcLen 10 1 2 msgs20).msgs.all
      (fun m => !(isPrimable m)) = true ∧
    (standardCompaction tcLen 10 1 2 msgs20).msgs.take
        (sysHead (removePrimable msgs20)) =
      (removePrimable msgs20).take (sysHead (removePrimable msgs20)) ∧
    ((standardCompaction tcLen 10 1 2 msgs20).msgs.drop
        (sysHead (removePrimable msgs20))).isSuffixOf
      ((removePrimable msgs20).drop (sysHead (removePrimable msgs20))) = true ∧
    (standardCompaction tcLen 10 1 2 msgs20).newTokens =
      listTokens tcLen (standardCompaction tcLen 10 1 2 msgs20).msgs ∧
    ((standardCompaction tcLen 10 1 2 msgs20).newTokens ≤
        listTokens tcLen msgs20 * 1 / 2 ∨
      (standardCompaction tcLen 10 1 2 msgs20).msgs =
        (removePrimable msgs20).take (sysHead (removePrimable msgs20)))) :=
  ⟨⟨by decide, by decide⟩,
   c3_compaction_strips_primable_and_hits_original_ratio tcLen 10 1 2 msgs20
     (by decide) (by decide)⟩

/-- Unfolding one step of the character loop. -/
theorem processChars_cons (s : ParserState) (c : Char) (cs : List Char) :
    processChars s (c :: cs) =
      ((processChars (stepChar s c).1 cs).1,
       (stepChar s c).2 ++ (processChars (stepChar s c).1 cs).2) := rfl

/-- The character loop splits over concatenation. -/
theorem processChars_append (a b : List Char) : ∀ s : ParserState,
    processChars s (a ++ b) =
      ((processChars (processChars s a).1 b).1,
       (processChars s a).2 ++ (processChars (processChars s a).1 b).2) := by
  induction a with
  | nil => intro s; simp [processChars]
  | cons c cs ih =>
    intro s
    simp [processChars_cons, ih, List.append_assoc]

/-- While a parameter is open and no tag opener arrives, every character is
    absorbed into partial_param and nothing is emitted. -/
theorem processChars_param_absorbs (v : List Char) (hv : '<' ∉ v) :
    ∀ s : ParserState, s.accTagActive = false → s.currentParam.isSome = true →
      processChars s v = ({ s with pendingParam := s.pendingParam ++ v }, []) := by
  induction v with
  | nil => intro s h1 h2; simp [processChars]
  | cons c cs ih =>
    intro s h1 h2
    have hc : ¬ c = '<' := fun h => hv (h ▸ List.mem_cons_self c cs)
    have hcs : '<' ∉ cs := fun h => hv (List.mem_cons_of_mem c h)
    have hstep : stepChar s c = ({ s with pendingParam := s.pendingParam ++ [c] }, []) := by
      simp [stepChar, h1, h2, hc]
    rw [processChars_cons, hstep]
    rw [ih hcs { s with pendingParam := s.pendingParam ++ [c] } h1 h2]
    simp

/-- While a tag is accumulating and neither bracket arrives, every character
    is appended to accumulated_tag and nothing is emitted. -/
theorem processChars_accum (w : List Char) (hw : ∀ c ∈ w, c ≠ '<' ∧ c ≠ '>') :
    ∀ s : ParserState, s.accTagActive = true →
      processChars s w = ({ s with accTag := s.accTag ++ w }, []) := by
  induction w with
  | nil => intro s h1; simp [processChars]
  | cons c cs ih =>
    intro s h1
    have hc := hw c (List.mem_cons_self c cs)
    have hcs : ∀ x ∈ cs, x ≠ '<' ∧ x ≠ '>' := fun x hx => hw x (List.mem_cons_of_mem c hx)
    have hstep : stepChar s c = ({ s with accTag := s.accTag ++ [c] }, []) := by
      simp [stepChar, h1, hc.2]
    rw [processChars_cons, hstep]
    rw [ih hcs { s with accTag := s.accTag ++ [c] } h1]
    simp

/-- A whole bracketed candidate tag reduces to the single '>' step taken
    from the fully accumulated state. -/
theorem processChars_tag (w : List Char) (hw : ∀ c ∈ w, c ≠ '<' ∧ c ≠ '>') :
    ∀ s : ParserState, s.accTagActive = false →
      processChars s ('<' :: (w ++ ['>'])) =
        stepChar { s with accTagActive := true, accTag := '<' :: w } '>' := by
  intro s h1
  have hstart : stepChar s '<' = ({ s with accTagActive := true, accTag := ['<'] }, []) := by
    simp [stepChar, h1]
  rw [processChars_cons, hstart]
  rw [processChars_append w ['>']]
  rw [processChars_accum w hw _ rfl]
  simp [processChars_cons, processChars]

/-- Flushing a state with empty buffers emits nothing. -/
theorem flushBufs_empty (s : ParserState) (h1 : s.textBuffer = [])
    (h2 : s.thinkingBuffer = []) : flushBufs s = (s, []) := by
  simp [flushBufs, h1, h2]

/-- Feeding one chunk from a freshly reset parser. -/
theorem feedChunk_resetParser (n : Nat) (cs : List Char) :
    feedChunk (resetParser n) cs =
      ((flushBufs (processChars (resetParser n) cs).1).1,
       (processChars (resetParser n) cs).2 ++
         (flushBufs (processChars (resetParser n) cs).1).2) := rfl

/-- The event stream of a single-chunk run followed by end-of-stream. -/
theorem runChunks_single (cs : List Char) :
    runChunks [cs] =
      (processChars (resetParser 0) cs).2 ++
        (flushBufs (processChars (resetParser 0) cs).1).2 ++
      (flushBufs (flushBufs (processChars (resetParser 0) cs).1).1).2 := by
  simp only [runChunks, feedChunks, feedChunk_resetParser, feedEnd]
  simp

/-- Generic engine for the untrimmed-parameter theorem: given the per-name
    facts about the opening prefix and the closing tag, a parameter value
    without tag openers is recorded verbatim. -/
theorem paramRecordedRawHelper (p : String) (v : List Char) (hv : '<' ∉ v)
    (hpre : processChars (resetParser 0) (("<write-to-file><" ++ p ++ ">").data) =
      (⟨false, true, some "write-to-file", some p, [], [], [], some 0, [], [], false, [], 1⟩,
       [.tool "write-to-file" 0 .started none]))
    (hw : ∀ c ∈ ('/' :: p.data), c ≠ '<' ∧ c ≠ '>')
    (hd : detectTag ('<' :: '/' :: (p.data ++ ['>'])) = (none, some p, some true))
    (hd2 : detectTag
        ['<', '/', 'w', 'r', 'i', 't', 'e', '-', 't', 'o', '-', 'f', 'i', 'l', 'e', '>'] =
      (some "write-to-file", none, some true))
    (hsplit : ("</" ++ p ++ "></write-to-file>").data =
      ('<' :: (('/' :: p.data) ++ ['>'])) ++ ('<' :: ("/write-to-file".data ++ ['>']))) :
    executingEvents (runChunks
      [("<write-to-file><" ++ p ++ ">").data ++ v ++
        ("</" ++ p ++ "></write-to-file>").data]) =
      [.tool "write-to-file" 0 .executing (some [(p, v)])] := by
  have h2 : processChars
      (⟨false, true, some "write-to-file", some p, [], [], [], some 0, [], [], false, [], 1⟩ :
        ParserState) v =
      (⟨false, true, some "write-to-file", some p, [], v, [], some 0, [], [], false, [], 1⟩,
       []) := by
    have := processChars_param_absorbs v hv
      ⟨false, true, some "write-to-file", some p, [], [], [], some 0, [], [], false, [], 1⟩
      rfl rfl
    simpa using this
  have h3 : processChars
      (⟨false, true, some "write-to-file", some p, [], v, [], some 0, [], [], false, [], 1⟩ :
        ParserState) ('<' :: (('/' :: p.data) ++ ['>'])) =
      (⟨false, true, some "write-to-file", none, [], v, [(p, v)], some 0, [], [], false, [], 1⟩,
       [.tool "write-to-file" 0 .progress (some [(p, v)])]) := by
    rw [processChars_tag ('/' :: p.data) hw _ rfl]
    simp [stepChar, hd, dictSet]
  have h4 : processChars
      (⟨false, true, some "write-to-file", none, [], v, [(p, v)], some 0, [], [], false, [], 1⟩ :
        ParserState) ('<' :: ("/write-to-file".data ++ ['>'])) =
      (⟨false, false, none, none, [], v, [], some 0, [], [], false, [], 1⟩,
       [.tool "write-to-file" 0 .executing (some [(p, v)])]) := by
    rw [processChars_tag ("/write-to-file".data) (by decide) _ rfl]
    simp [stepChar, hd2]
  have hall : processChars (resetParser 0)
      ((("<write-to-file><" ++ p ++ ">").data ++ v) ++
        ("</" ++ p ++ "></write-to-file>").data) =
      ((⟨false, false, none, none, [], v, [], some 0, [], [], false, [], 1⟩ : ParserState),
       [.tool "write-to-file" 0 .started none,
        .tool "write-to-file" 0 .progress (some [(p, v)]),
        .tool "write-to-file" 0 .executing (some [(p, v)])]) := by
    rw [hsplit]
    rw [processChars_append (("<write-to-file><" ++ p ++ ">").data ++ v)
        (('<' :: (('/' :: p.data) ++ ['>'])) ++ ('<' :: ("/write-to-file".data ++ ['>'])))]
    rw [processChars_append (("<write-to-file><" ++ p ++ ">").data) v]
    rw [hpre]
    rw [show ((⟨false, true, some "write-to-file", some p, [], [], [], some 0, [], [], false,
        [], 1⟩, [StreamEvt.tool "write-to-file" 0 .started none]) :
        ParserState × List StreamEvt).1 =
      ⟨false, true, some "write-to-file", some p, [], [], [], some 0, [], [], false, [], 1⟩
      from rfl, h2]
    rw [show ((⟨false, true, some "write-to-file", some p, [], v, [], some 0, [], [], false,
        [], 1⟩, ([] : List StreamEvt)) : ParserState × List StreamEvt).1 =
      ⟨false, true, some "write-to-file", some p, [], v, [], some 0, [], [], false, [], 1⟩
      from rfl]
    rw [processChars_append ('<' :: (('/' :: p.data) ++ ['>']))
        ('<' :: ("/write-to-file".data ++ ['>']))]
    rw [h3]
    rw [show ((⟨false, true, some "write-to-file", none, [], v, [(p, v)], some 0, [], [],
        false, [], 1⟩, [StreamEvt.tool "write-to-file" 0 .progress (some [(p, v)])]) :
        ParserState × List StreamEvt).1 =
      ⟨false, true, some "write-to-file", none, [], v, [(p, v)], some 0, [], [], false, [], 1⟩
      from rfl, h4]
    simp
  rw [runChunks_single, hall]
  simp [flushBufs, executingEvents]

/-- C9 amended: for every tool parameter name and every value without a tag
    opener, the executing Tool event records exactly the raw text between
    the parameter's open and close tags — no whitespace trimming. -/
theorem c9_param_value_recorded_raw (p : String) (v : List Char)
    (hp : p ∈ toolParamNames) (hv : '<' ∉ v) :
    executingEvents (runChunks
      [("<write-to-file><" ++ p ++ ">").data ++ v ++
        ("</" ++ p ++ "></write-to-file>").data]) =
      [.tool "write-to-file" 0 .executing (some [(p, v)])] := by
  fin_cases hp <;>
    exact paramRecordedRawHelper _ v hv (by decide) (by decide) (by decide) (by decide)
      (by decide)

/-- Witness for C9 at the path parameter and the value " a.txt " whose
    surrounding whitespace is kept. -/
theorem c9_param_value_recorded_raw_witness :
    ("path" ∈ toolParamNames ∧ '<' ∉ " a.txt ".data) ∧
    executingEvents (runChunks
      [("<write-to-file><" ++ "path" ++ ">").data ++ " a.txt ".data ++
        ("</" ++ "path" ++ "></write-to-file>").data]) =
      [.tool "write-to-file" 0 .executing (some [("path", " a.txt ".data)])] :=
  ⟨⟨by decide, by decide⟩,
   c9_param_value_recorded_raw "path" " a.txt ".data (by decide) (by decide)⟩

@[simp] theorem bufExt_inThinking (pT pTh : List Char) (s : ParserState) :
    (bufExt pT pTh s).inThinking = s.inThinking := rfl
@[simp] theorem bufExt_inTool (pT pTh : List Char) (s : ParserState) :
    (bufExt pT pTh s).inTool = s.inTool := rfl
@[simp] theorem bufExt_currentTool (pT pTh : List Char) (s : ParserState) :
    (bufExt pT pTh s).currentTool = s.currentTool := rfl
@[simp] theorem bufExt_currentParam (pT pTh : List Char) (s : ParserState) :
    (bufExt pT pTh s).currentParam = s.currentParam := rfl
@[simp] theorem bufExt_pendingTag (pT pTh : List Char) (s : ParserState) :
    (bufExt pT pTh s).pendingTag = s.pendingTag := rfl
@[simp] theorem bufExt_pendingParam (pT pTh : List Char) (s : ParserState) :
    (bufExt pT pTh s).pendingParam = s.pendingParam := rfl
@[simp] theorem bufExt_currentParams (pT pTh : List Char) (s : ParserState) :
    (bufExt pT pTh s).currentParams = s.currentParams := rfl
@[simp] theorem bufExt_currentToolId (pT pTh : List Char) (s : ParserState) :
    (bufExt pT pTh s).currentToolId = s.currentToolId := rfl
@[simp] theorem bufExt_thinkingBuffer (pT pTh : List Char) (s : ParserState) :
    (bufExt pT pTh s).thinkingBuffer = pTh ++ s.thinkingBuffer := rfl
@[simp] theorem bufExt_textBuffer (pT pTh : List Char) (s : ParserState) :
    (bufExt pT pTh s).textBuffer = pT ++ s.textBuffer := rfl
@[simp] theorem bufExt_accTagActive (pT pTh : List Char) (s : ParserState) :
    (bufExt pT pTh s).accTagActive = s.accTagActive := rfl
@[simp] theorem bufExt_accTag (pT pTh : List Char) (s : ParserState) :
    (bufExt pT pTh s).accTag = s.accTag := rfl
@[simp] theorem bufExt_nextId (pT pTh : List Char) (s : ParserState) :
    (bufExt pT pTh s).nextId = s.nextId := rfl

/-- Extending with empty pendings is the identity. -/
theorem bufExt_nil (s : ParserState) : bufExt [] [] s = s := by
  simp [bufExt]

/-- textConcat distributes over event-list concatenation. -/
@[simp] theorem textConcat_append (a b : List StreamEvt) :
    textConcat (a ++ b) = textConcat a ++ textConcat b := by
  induction a with
  | nil => rfl
  | cons e t ih => cases e <;> simp [textConcat, ih]

/-- thinkingConcat distributes over event-list concatenation. -/
@[simp] theorem thinkingConcat_append (a b : List StreamEvt) :
    thinkingConcat (a ++ b) = thinkingConcat a ++ thinkingConcat b := by
  induction a with
  | nil => rfl
  | cons e t ih => cases e <;> simp [thinkingConcat, ih]

@[simp] theorem textConcat_nil : textConcat [] = [] := rfl
@[simp] theorem thinkingConcat_nil : thinkingConcat [] = [] := rfl
@[simp] theorem textConcat_text (t : List Char) (es : List StreamEvt) :
    textConcat (.text t :: es) = t ++ textConcat es := rfl
@[simp] theorem textConcat_thinking (t : List Char) (es : List StreamEvt) :
    textConcat (.thinking t :: es) = textConcat es := rfl
@[simp] theorem thinkingConcat_thinking (t : List Char) (es : List StreamEvt) :
    thinkingConcat (.thinking t :: es) = t ++ thinkingConcat es := rfl
@[simp] theorem thinkingConcat_text (t : List Char) (es : List StreamEvt) :
    thinkingConcat (.text t :: es) = thinkingConcat es := rfl
@[simp] theorem textConcat_tool (name : String) (i : Nat) (st : ToolStatus)
    (ps : Option (List (String × List Char))) (es : List StreamEvt) :
    textConcat (.tool name i st ps :: es) = textConcat es := rfl
@[simp] theorem thinkingConcat_tool (name : String) (i : Nat) (st : ToolStatus)
    (ps : Option (List (String × List Char))) (es : List StreamEvt) :
    thinkingConcat (.tool name i st ps :: es) = thinkingConcat es := rfl

/-- Branch: accumulating and the character is not '>'. -/
theorem stepChar_accum_more (s : ParserState) (c : Char)
    (h1 : s.accTagActive = true) (h2 : ¬ c = '>') :
    stepChar s c = ({ s with accTag := s.accTag ++ [c] }, []) := by
  simp [stepChar, h1, h2]

/-- Branch: unrecognized closed tag while a parameter is open. -/
theorem stepChar_unrec_param (s : ParserState)
    (h1 : s.accTagActive = true)
    (hd : (detectTag (s.accTag ++ ['>'])).1 = none ∧
      (detectTag (s.accTag ++ ['>'])).2.1 = none)
    (h3 : s.currentParam.isSome = true) :
    stepChar s '>' = ({ s with
      pendingParam := s.pendingParam ++ (s.accTag ++ ['>']),
      accTagActive := false, accTag := [] }, []) := by
  simp [stepChar, h1, hd, h3]

/-- Branch: unrecognized closed tag inside a thinking block. -/
theorem stepChar_unrec_thinking (s : ParserState)
    (h1 : s.accTagActive = true)
    (hd : (detectTag (s.accTag ++ ['>'])).1 = none ∧
      (detectTag (s.accTag ++ ['>'])).2.1 = none)
    (h3 : s.currentParam.isSome = false) (h4 : s.inThinking = true) :
    stepChar s '>' = ({ s with
      thinkingBuffer := s.thinkingBuffer ++ (s.accTag ++ ['>']),
      accTagActive := false, accTag := [] }, []) := by
  simp [stepChar, h1, hd, h3, h4]

/-- Branch: unrecognized closed tag in plain text mode. -/
theorem stepChar_unrec_text (s : ParserState)
    (h1 : s.accTagActive = true)
    (hd : (detectTag (s.accTag ++ ['>'])).1 = none ∧
      (detectTag (s.accTag ++ ['>'])).2.1 = none)
    (h3 : s.currentParam.isSome = false) (h4 : s.inThinking = false)
    (h5 : s.inTool = false) :
    stepChar s '>' = ({ s with
      textBuffer := s.textBuffer ++ (s.accTag ++ ['>']),
      accTagActive := false, accTag := [] }, []) := by
  simp [stepChar, h1, hd, h3, h4, h5]

/-- Branch: unrecognized closed tag inside a tool block with no open
    parameter: dropped. -/
theorem stepChar_unrec_drop (s : ParserState)
    (h1 : s.accTagActive = true)
    (hd : (detectTag (s.accTag ++ ['>'])).1 = none ∧
      (detectTag (s.accTag ++ ['>'])).2.1 = none)
    (h3 : s.currentParam.isSome = false) (h4 : s.inThinking = false)
    (h5 : s.inTool = true) :
    stepChar s '>' = ({ s with accTagActive := false, accTag := [] }, []) := by
  simp [stepChar, h1, hd, h3, h4, h5]

/-- Branch: the thinking tag (opening or closing form). -/
theorem stepChar_thinking_tag (s : ParserState)
    (h1 : s.accTagActive = true)
    (hd : (detectTag (s.accTag ++ ['>'])).1 = some "thinking") :
    stepChar s '>' =
      ({ (flushBufs s).1 with
          inThinking := ¬ ((detectTag (s.accTag ++ ['>'])).2.2.getD false),
          accTagActive := false, accTag := [] },
       (flushBufs s).2) := by
  simp [stepChar, h1, hd]

/-- Branch: a tool opening tag. -/
theorem stepChar_tool_open (s : ParserState)
    (h1 : s.accTagActive = true)
    (hd1 : (detectTag (s.accTag ++ ['>'])).1.isSome = true)
    (hd2 : ¬ (detectTag (s.accTag ++ ['>'])).1 = some "thinking")
    (hcl : (detectTag (s.accTag ++ ['>'])).2.2.getD false = false) :
    stepChar s '>' =
      ({ (flushBufs s).1 with
          inTool := true, currentTool := (detectTag (s.accTag ++ ['>'])).1,
          currentToolId := some s.nextId, nextId := s.nextId + 1,
          accTagActive := false, accTag := [] },
       (flushBufs s).2 ++
         [.tool ((detectTag (s.accTag ++ ['>'])).1.getD "") s.nextId .started none]) := by
  have hne : ¬ ((detectTag (s.accTag ++ ['>'])).1 = none ∧
      (detectTag (s.accTag ++ ['>'])).2.1 = none) := by
    intro hc
    rw [hc.1] at hd1
    exact absurd hd1 (by simp)
  simp [stepChar, h1, hne, hd2, hcl, hd1]

/-- Branch: a tool closing tag with an open tool block. -/
theorem stepChar_tool_close (s : ParserState)
    (h1 : s.accTagActive = true)
    (hd1 : (detectTag (s.accTag ++ ['>'])).1.isSome = true)
    (hd2 : ¬ (detectTag (s.accTag ++ ['>'])).1 = some "thinking")
    (hcl : (detectTag (s.accTag ++ ['>'])).2.2.getD false = true)
    (h5 : s.inTool = true) (h6 : s.currentTool.isSome = true)
    (h7 : s.currentToolId.isSome = true) :
    stepChar s '>' =
      ({ s with
          inTool := false, currentTool := none, currentParams := [],
          accTagActive := false, accTag := [] },
       [.tool (s.currentTool.getD "") (s.currentToolId.getD 0) .executing
        (some s.currentParams)]) := by
  have hne : ¬ ((detectTag (s.accTag ++ ['>'])).1 = none ∧
      (detectTag (s.accTag ++ ['>'])).2.1 = none) := by
    intro hc
    rw [hc.1] at hd1
    exact absurd hd1 (by simp)
  simp [stepChar, h1, hne, hd2, hcl, hd1, h5, h6, h7]

/-- Branch: a tool closing tag without an open tool block: dropped. -/
theorem stepChar_tool_close_drop (s : ParserState)
    (h1 : s.accTagActive = true)
    (hd1 : (detectTag (s.accTag ++ ['>'])).1.isSome = true)
    (hd2 : ¬ (detectTag (s.accTag ++ ['>'])).1 = some "thinking")
    (hcl : (detectTag (s.accTag ++ ['>'])).2.2.getD false = true)
    (h5 : ¬ (s.inTool = true ∧ s.currentTool.isSome = true ∧
      s.currentToolId.isSome = true)) :
    stepChar s '>' = ({ s with accTagActive := false, accTag := [] }, []) := by
  have hne : ¬ ((detectTag (s.accTag ++ ['>'])).1 = none ∧
      (detectTag (s.accTag ++ ['>'])).2.1 = none) := by
    intro hc
    rw [hc.1] at hd1
    exact absurd hd1 (by simp)
  rw [stepChar]
  simp only [h1, if_true]
  simp [hne, hd2, hcl, hd1, h5]

/-- Branch: a parameter opening tag inside a tool block. -/
theorem stepChar_param_open (s : ParserState)
    (h1 : s.accTagActive = true)
    (hd1 : (detectTag (s.accTag ++ ['>'])).1 = none)
    (hd2 : (detectTag (s.accTag ++ ['>'])).2.1.isSome = true)
    (hcl : (detectTag (s.accTag ++ ['>'])).2.2.getD false = false)
    (h5 : s.inTool = true) :
    stepChar s '>' =
      ({ s with
          currentParam := (detectTag (s.accTag ++ ['>'])).2.1,
          pendingParam := [], accTagActive := false, accTag := [] }, []) := by
  have hne : ¬ ((detectTag (s.accTag ++ ['>'])).1 = none ∧
      (detectTag (s.accTag ++ ['>'])).2.1 = none) := by
    intro hc
    rw [hc.2] at hd2
    exact absurd hd2 (by simp)
  have hd2' : ¬ (detectTag (s.accTag ++ ['>'])).2.1 = none :=
    Option.ne_none_iff_isSome.mpr hd2
  simp [stepChar, h1, hne, hd1, hd2, hd2', hcl, h5]

/-- Branch: a parameter closing tag with an open parameter. -/
theorem stepChar_param_close (s : ParserState)
    (h1 : s.accTagActive = true)
    (hd1 : (detectTag (s.accTag ++ ['>'])).1 = none)
    (hd2 : (detectTag (s.accTag ++ ['>'])).2.1.isSome = true)
    (hcl : (detectTag (s.accTag ++ ['>'])).2.2.getD false = true)
    (h5 : s.inTool = true) (h6 : s.currentParam.isSome = true) :
    stepChar s '>' =
      ({ s with
          currentParams := dictSet s.currentParams (s.currentParam.getD "") s.pendingParam,
          currentParam := none, accTagActive := false, accTag := [] },
       if s.currentTool.isSome ∧ s.currentToolId.isSome then
         [.tool (s.currentTool.getD "") (s.currentToolId.getD 0) .progress
          (some (dictSet s.currentParams (s.currentParam.getD "") s.pendingParam))]
       else []) := by
  have hne : ¬ ((detectTag (s.accTag ++ ['>'])).1 = none ∧
      (detectTag (s.accTag ++ ['>'])).2.1 = none) := by
    intro hc
    rw [hc.2] at hd2
    exact absurd hd2 (by simp)
  have hd2' : ¬ (detectTag (s.accTag ++ ['>'])).2.1 = none :=
    Option.ne_none_iff_isSome.mpr hd2
  simp [stepChar, h1, hne, hd1, hd2, hd2', hcl, h5, h6]

/-- Branch: a parameter closing tag without an open parameter: dropped. -/
theorem stepChar_param_close_drop (s : ParserState)
    (h1 : s.accTagActive = true)
    (hd1 : (detectTag (s.accTag ++ ['>'])).1 = none)
    (hd2 : (detectTag (s.accTag ++ ['>'])).2.1.isSome = true)
    (hcl : (detectTag (s.accTag ++ ['>'])).2.2.getD false = true)
    (h5 : s.inTool = true) (h6 : s.currentParam.isSome = false) :
    stepChar s '>' = ({ s with accTagActive := false, accTag := [] }, []) := by
  have hne : ¬ ((detectTag (s.accTag ++ ['>'])).1 = none ∧
      (detectTag (s.accTag ++ ['>'])).2.1 = none) := by
    intro hc
    rw [hc.2] at hd2
    exact absurd hd2 (by simp)
  have hd2' : ¬ (detectTag (s.accTag ++ ['>'])).2.1 = none :=
    Option.ne_none_iff_isSome.mpr hd2
  simp [stepChar, h1, hne, hd1, hd2, hd2', hcl, h5, h6]

/-- Branch: a recognized parameter tag outside a tool block: dropped. -/
theorem stepChar_param_outside (s : ParserState)
    (h1 : s.accTagActive = true)
    (hd1 : (detectTag (s.accTag ++ ['>'])).1 = none)
    (hd2 : (detectTag (s.accTag ++ ['>'])).2.1.isSome = true)
    (h5 : s.inTool = false) :
    stepChar s '>' = ({ s with accTagActive := false, accTag := [] }, []) := by
  have hne : ¬ ((detectTag (s.accTag ++ ['>'])).1 = none ∧
      (detectTag (s.accTag ++ ['>'])).2.1 = none) := by
    intro hc
    rw [hc.2] at hd2
    exact absurd hd2 (by simp)
  have hd2' : ¬ (detectTag (s.accTag ++ ['>'])).2.1 = none :=
    Option.ne_none_iff_isSome.mpr hd2
  simp [stepChar, h1, hne, hd1, hd2, hd2', h5]

/-- Branch: a '<' outside tag accumulation starts a new candidate tag. -/
theorem stepChar_start_tag (s : ParserState)
    (h1 : s.accTagActive = false) :
    stepChar s '<' = ({ s with accTagActive := true, accTag := ['<'] }, []) := by
  simp [stepChar, h1]

/-- Branch: a plain character while a parameter is open. -/
theorem stepChar_param_char (s : ParserState) (c : Char)
    (h1 : s.accTagActive = false) (h2 : ¬ c = '<')
    (h3 : s.currentParam.isSome = true) :
    stepChar s c = ({ s with pendingParam := s.pendingParam ++ [c] }, []) := by
  simp [stepChar, h1, h2, h3]

/-- Branch: a plain character inside a thinking block. -/
theorem stepChar_thinking_char (s : ParserState) (c : Char)
    (h1 : s.accTagActive = false) (h2 : ¬ c = '<')
    (h3 : s.currentParam.isSome = false) (h4 : s.inThinking = true) :
    stepChar s c = ({ s with thinkingBuffer := s.thinkingBuffer ++ [c] }, []) := by
  simp [stepChar, h1, h2, h3, h4]

/-- Branch: a plain character in text mode. -/
theorem stepChar_text_char (s : ParserState) (c : Char)
    (h1 : s.accTagActive = false) (h2 : ¬ c = '<')
    (h3 : s.currentParam.isSome = false) (h4 : s.inThinking = false)
    (h5 : s.inTool = false) :
    stepChar s c = ({ s with textBuffer := s.textBuffer ++ [c] }, []) := by
  simp [stepChar, h1, h2, h3, h4, h5]

/-- Branch: a plain character inside a tool block outside parameters:
    dropped. -/
theorem stepChar_drop_char (s : ParserState) (c : Char)
    (h1 : s.accTagActive = false) (h2 : ¬ c = '<')
    (h3 : s.currentParam.isSome = false) (h4 : s.inThinking = false)
    (h5 : s.inTool = true) :
    stepChar s c = (s, []) := by
  simp [stepChar, h1, h2, h3, h4, h5]

/-- Replacing an already-empty thinking buffer is the identity. -/
theorem set_thinkingBuffer_self (s : ParserState) (h : s.thinkingBuffer = []) :
    ({ s with thinkingBuffer := [] } : ParserState) = s := by rw [← h]

/-- Replacing an already-empty text buffer is the identity. -/
theorem set_textBuffer_self (s : ParserState) (h : s.textBuffer = []) :
    ({ s with textBuffer := [] } : ParserState) = s := by rw [← h]

/-- Flush branch: thinking content. -/
theorem flushBufs_thinking (s : ParserState) (h1 : s.inThinking = true)
    (h2 : s.thinkingBuffer ≠ []) :
    flushBufs s = ({ s with thinkingBuffer := [] }, [.thinking s.thinkingBuffer]) := by
  simp [flushBufs, h1, h2]

/-- Flush branch: text content. -/
theorem flushBufs_text (s : ParserState) (h1 : s.inThinking = false)
    (h2 : s.inTool = false) (h3 : s.textBuffer ≠ []) :
    flushBufs s = ({ s with textBuffer := [] }, [.text s.textBuffer]) := by
  simp [flushBufs, h1, h2, h3]

/-- Flush branch: in a thinking block with an empty thinking buffer nothing
    is emitted. -/
theorem flushBufs_skip_thinking (s : ParserState) (h1 : s.inThinking = true)
    (h2 : s.thinkingBuffer = []) : flushBufs s = (s, []) := by
  simp [flushBufs, h1, h2]

/-- Flush branch: outside thinking with an empty text buffer nothing is
    emitted. -/
theorem flushBufs_skip_text (s : ParserState) (h1 : s.inThinking = false)
    (h2 : s.textBuffer = []) : flushBufs s = (s, []) := by
  simp [flushBufs, h1, h2]

/-- Flush branch: inside a tool block outside thinking nothing is emitted. -/
theorem flushBufs_skip_tool (s : ParserState) (h1 : s.inThinking = false)
    (h2 : s.inTool = true) : flushBufs s = (s, []) := by
  simp [flushBufs, h1, h2]

/-- Flushing a buffer-extended state yields the same post-flush state as
    flushing the plain state, with the pending prefixes prepended to the
    respective emitted contents. -/
theorem flushBufs_rel (pT pTh : List Char) (s : ParserState)
    (hinv : PendInv pT pTh s) :
    (flushBufs (bufExt pT pTh s)).1 = (flushBufs s).1 ∧
    textConcat (flushBufs (bufExt pT pTh s)).2 = pT ++ textConcat (flushBufs s).2 ∧
    thinkingConcat (flushBufs (bufExt pT pTh s)).2 =
      pTh ++ thinkingConcat (flushBufs s).2 := by
  obtain ⟨hi1, hi2⟩ := hinv
  by_cases hth : s.inThinking = true
  · have hpT : pT = [] := by
      by_contra hne
      have := (hi1 hne).1
      rw [hth] at this
      exact absurd this (by simp)
    subst hpT
    by_cases hb : s.thinkingBuffer = []
    · by_cases hpTh : pTh = []
      · subst hpTh
        rw [bufExt_nil]
        simp
      · have hbe : (bufExt [] pTh s).thinkingBuffer ≠ [] := by
          simp [hpTh]
        rw [flushBufs_thinking (bufExt [] pTh s) hth hbe, flushBufs_skip_thinking s hth hb]
        refine ⟨?_, by simp [textConcat], ?_⟩
        · have : ({ bufExt [] pTh s with thinkingBuffer := [] } : ParserState) =
              { s with thinkingBuffer := [] } := by
            simp [bufExt]
          rw [this, set_thinkingBuffer_self s hb]
        · simp [thinkingConcat, hb, bufExt]
    · have hbe : (bufExt [] pTh s).thinkingBuffer ≠ [] := by
        simp [hb]
      rw [flushBufs_thinking (bufExt [] pTh s) hth hbe, flushBufs_thinking s hth hb]
      refine ⟨?_, by simp [textConcat], by simp [thinkingConcat, bufExt]⟩
      simp [bufExt]
  · have hth' : s.inThinking = false := by
      cases hx : s.inThinking
      · rfl
      · exact absurd hx hth
    have hpTh : pTh = [] := by
      by_contra hne
      have := hi2 hne
      rw [hth'] at this
      exact absurd this (by simp)
    subst hpTh
    by_cases htool : s.inTool = true
    · have hpT : pT = [] := by
        by_contra hne
        have := (hi1 hne).2
        rw [htool] at this
        exact absurd this (by simp)
      subst hpT
      rw [bufExt_nil]
      simp
    · have htool' : s.inTool = false := by
        cases hx : s.inTool
        · rfl
        · exact absurd hx htool
      by_cases htb : s.textBuffer = []
      · by_cases hpT : pT = []
        · subst hpT
          rw [bufExt_nil]
          simp
        · have hbe : (bufExt pT [] s).textBuffer ≠ [] := by
            simp [hpT]
          rw [flushBufs_text (bufExt pT [] s) hth' htool' hbe,
            flushBufs_skip_text s hth' htb]
          refine ⟨?_, ?_, by simp [thinkingConcat]⟩
          · have : ({ bufExt pT [] s with textBuffer := [] } : ParserState) =
                { s with textBuffer := [] } := by
              simp [bufExt]
            rw [this, set_textBuffer_self s htb]
          · simp [textConcat, htb, bufExt]
      · have hbe : (bufExt pT [] s).textBuffer ≠ [] := by
          simp [htb]
        rw [flushBufs_text (bufExt pT [] s) hth' htool' hbe,
          flushBufs_text s hth' htool' htb]
        refine ⟨?_, by simp [textConcat, bufExt], by simp [thinkingConcat]⟩
        simp [bufExt]

/-- One parser step from a buffer-extended state simulates the step from the
    plain state: the new state is an extension by new pendings, and each
    emitted-content concatenation absorbs the pending prefix
    (emitted ++ new pending = old pending ++ plain emitted). -/
theorem stepChar_rel (pT pTh : List Char) (s : ParserState) (c : Char)
    (hinv : PendInv pT pTh s) :
    ∃ pT' pTh',
      (stepChar (bufExt pT pTh s) c).1 = bufExt pT' pTh' (stepChar s c).1 ∧
      PendInv pT' pTh' (stepChar s c).1 ∧
      textConcat (stepChar (bufExt pT pTh s) c).2 ++ pT' =
        pT ++ textConcat (stepChar s c).2 ∧
      thinkingConcat (stepChar (bufExt pT pTh s) c).2 ++ pTh' =
        pTh ++ thinkingConcat (stepChar s c).2 := by
  by_cases htag : s.accTagActive = true
  · by_cases hc : c = '>'
    · subst hc
      by_cases hu : (detectTag (s.accTag ++ ['>'])).1 = none ∧
          (detectTag (s.accTag ++ ['>'])).2.1 = none
      · -- unrecognized closed tag
        by_cases hp : s.currentParam.isSome = true
        · rw [stepChar_unrec_param s htag hu hp,
            stepChar_unrec_param (bufExt pT pTh s) htag hu hp]
          exact ⟨pT, pTh, by simp [bufExt], hinv, by simp, by simp⟩
        · have hp' : s.currentParam.isSome = false := by
            cases hx : s.currentParam.isSome
            · rfl
            · exact absurd hx hp
          by_cases hthk : s.inThinking = true
          · rw [stepChar_unrec_thinking s htag hu hp' hthk,
              stepChar_unrec_thinking (bufExt pT pTh s) htag hu hp' hthk]
            exact ⟨pT, pTh, by simp [bufExt], hinv, by simp, by simp⟩
          · have hthk' : s.inThinking = false := by
              cases hx : s.inThinking
              · rfl
              · exact absurd hx hthk
            by_cases htl : s.inTool = true
            · rw [stepChar_unrec_drop s htag hu hp' hthk' htl,
                stepChar_unrec_drop (bufExt pT pTh s) htag hu hp' hthk' htl]
              exact ⟨pT, pTh, by simp [bufExt], hinv, by simp, by simp⟩
            · have htl' : s.inTool = false := by
                cases hx : s.inTool
                · rfl
                · exact absurd hx htl
              rw [stepChar_unrec_text s htag hu hp' hthk' htl',
                stepChar_unrec_text (bufExt pT pTh s) htag hu hp' hthk' htl']
              exact ⟨pT, pTh, by simp [bufExt], hinv, by simp, by simp⟩
      · -- recognized tag
        by_cases hthinktag : (detectTag (s.accTag ++ ['>'])).1 = some "thinking"
        · rw [stepChar_thinking_tag s htag hthinktag,
            stepChar_thinking_tag (bufExt pT pTh s) htag hthinktag]
          obtain ⟨f1, f2, f3⟩ := flushBufs_rel pT pTh s hinv
          refine ⟨[], [], ?_, by simp [PendInv], ?_, ?_⟩
          · rw [bufExt_nil]
            simp only [bufExt_accTag]
            rw [f1]
          · simpa using f2
          · simpa using f3
        · by_cases hd1s : (detectTag (s.accTag ++ ['>'])).1.isSome = true
          · by_cases hclv : (detectTag (s.accTag ++ ['>'])).2.2.getD false = true
            · by_cases hok : s.inTool = true ∧ s.currentTool.isSome = true ∧
                  s.currentToolId.isSome = true
              · rw [stepChar_tool_close s htag hd1s hthinktag hclv hok.1 hok.2.1 hok.2.2,
                  stepChar_tool_close (bufExt pT pTh s) htag hd1s hthinktag hclv
                    hok.1 hok.2.1 hok.2.2]
                refine ⟨pT, pTh, by simp [bufExt], ?_, by simp, by simp⟩
                exact ⟨fun hne => ⟨(hinv.1 hne).1, rfl⟩, hinv.2⟩
              · rw [stepChar_tool_close_drop s htag hd1s hthinktag hclv hok,
                  stepChar_tool_close_drop (bufExt pT pTh s) htag hd1s hthinktag hclv hok]
                exact ⟨pT, pTh, by simp [bufExt], hinv, by simp, by simp⟩
            · have hclv' : (detectTag (s.accTag ++ ['>'])).2.2.getD false = false := by
                cases hx : (detectTag (s.accTag ++ ['>'])).2.2.getD false
                · rfl
                · exact absurd hx hclv
              rw [stepChar_tool_open s htag hd1s hthinktag hclv',
                stepChar_tool_open (bufExt pT pTh s) htag hd1s hthinktag hclv']
              obtain ⟨f1, f2, f3⟩ := flushBufs_rel pT pTh s hinv
              refine ⟨[], [], ?_, by simp [PendInv], ?_, ?_⟩
              · rw [bufExt_nil]
                simp only [bufExt_accTag, bufExt_nextId]
                rw [f1]
              · simp only [bufExt_accTag, bufExt_nextId, textConcat_append]
                simpa using f2
              · simp only [bufExt_accTag, bufExt_nextId, thinkingConcat_append]
                simpa using f3
          · have hd1n : (detectTag (s.accTag ++ ['>'])).1 = none := by
              cases hx : (detectTag (s.accTag ++ ['>'])).1 with
              | none => rfl
              | some t => rw [hx] at hd1s; simp at hd1s
            have hd2s : (detectTag (s.accTag ++ ['>'])).2.1.isSome = true := by
              cases hx : (detectTag (s.accTag ++ ['>'])).2.1 with
              | none => exact absurd ⟨hd1n, hx⟩ hu
              | some p => rfl
            by_cases htl : s.inTool = true
            · by_cases hclv : (detectTag (s.accTag ++ ['>'])).2.2.getD false = true
              · by_cases hp : s.currentParam.isSome = true
                · rw [stepChar_param_close s htag hd1n hd2s hclv htl hp,
                    stepChar_param_close (bufExt pT pTh s) htag hd1n hd2s hclv htl hp]
                  refine ⟨pT, pTh, by simp [bufExt], hinv, ?_, ?_⟩
                  · by_cases hev : s.currentTool.isSome ∧ s.currentToolId.isSome <;>
                      simp [hev]
                  · by_cases hev : s.currentTool.isSome ∧ s.currentToolId.isSome <;>
                      simp [hev]
                · have hp' : s.currentParam.isSome = false := by
                    cases hx : s.currentParam.isSome
                    · rfl
                    · exact absurd hx hp
                  rw [stepChar_param_close_drop s htag hd1n hd2s hclv htl hp',
                    stepChar_param_close_drop (bufExt pT pTh s) htag hd1n hd2s hclv htl hp']
                  exact ⟨pT, pTh, by simp [bufExt], hinv, by simp, by simp⟩
              · have hclv' : (detectTag (s.accTag ++ ['>'])).2.2.getD false = false := by
                  cases hx : (detectTag (s.accTag ++ ['>'])).2.2.getD false
                  · rfl
                  · exact absurd hx hclv
                rw [stepChar_param_open s htag hd1n hd2s hclv' htl,
                  stepChar_param_open (bufExt pT pTh s) htag hd1n hd2s hclv' htl]
                exact ⟨pT, pTh, by simp [bufExt], hinv, by simp, by simp⟩
            · have htl' : s.inTool = false := by
                cases hx : s.inTool
                · rfl
                · exact absurd hx htl
              rw [stepChar_param_outside s htag hd1n hd2s htl',
                stepChar_param_outside (bufExt pT pTh s) htag hd1n hd2s htl']
              exact ⟨pT, pTh, by simp [bufExt], hinv, by simp, by simp⟩
    · rw [stepChar_accum_more s c htag hc, stepChar_accum_more (bufExt pT pTh s) c htag hc]
      exact ⟨pT, pTh, by simp [bufExt], hinv, by simp, by simp⟩
  · have htag' : s.accTagActive = false := by
      cases hx : s.accTagActive
      · rfl
      · exact absurd hx htag
    by_cases hlt : c = '<'
    · subst hlt
      rw [stepChar_start_tag s htag', stepChar_start_tag (bufExt pT pTh s) htag']
      exact ⟨pT, pTh, by simp [bufExt], hinv, by simp, by simp⟩
    · by_cases hp : s.currentParam.isSome = true
      · rw [stepChar_param_char s c htag' hlt hp,
          stepChar_param_char (bufExt pT pTh s) c htag' hlt hp]
        exact ⟨pT, pTh, by simp [bufExt], hinv, by simp, by simp⟩
      · have hp' : s.currentParam.isSome = false := by
          cases hx : s.currentParam.isSome
          · rfl
          · exact absurd hx hp
        by_cases hthk : s.inThinking = true
        · rw [stepChar_thinking_char s c htag' hlt hp' hthk,
            stepChar_thinking_char (bufExt pT pTh s) c htag' hlt hp' hthk]
          exact ⟨pT, pTh, by simp [bufExt], hinv, by simp, by simp⟩
        · have hthk' : s.inThinking = false := by
            cases hx : s.inThinking
            · rfl
            · exact absurd hx hthk
          by_cases htl : s.inTool = true
          · rw [stepChar_drop_char s c htag' hlt hp' hthk' htl,
              stepChar_drop_char (bufExt pT pTh s) c htag' hlt hp' hthk' htl]
            exact ⟨pT, pTh, rfl, hinv, by simp, by simp⟩
          · have htl' : s.inTool = false := by
              cases hx : s.inTool
              · rfl
              · exact absurd hx htl
            rw [stepChar_text_char s c htag' hlt hp' hthk' htl',
              stepChar_text_char (bufExt pT pTh s) c htag' hlt hp' hthk' htl']
            exact ⟨pT, pTh, by simp [bufExt], hinv, by simp, by simp⟩

/-- Processing a whole character list from a buffer-extended state simulates
    processing from the plain state. -/
theorem processChars_rel (cs : List Char) : ∀ (pT pTh : List Char) (s : ParserState),
    PendInv pT pTh s →
    ∃ pT' pTh',
      (processChars (bufExt pT pTh s) cs).1 = bufExt pT' pTh' (processChars s cs).1 ∧
      PendInv pT' pTh' (processChars s cs).1 ∧
      textConcat (processChars (bufExt pT pTh s) cs).2 ++ pT' =
        pT ++ textConcat (processChars s cs).2 ∧
      thinkingConcat (processChars (bufExt pT pTh s) cs).2 ++ pTh' =
        pTh ++ thinkingConcat (processChars s cs).2 := by
  induction cs with
  | nil =>
    intro pT pTh s h
    exact ⟨pT, pTh, rfl, h, by simp [processChars], by simp [processChars]⟩
  | cons c rest ih =>
    intro pT pTh s h
    obtain ⟨q1, q2, e1, e2, e3, e4⟩ := stepChar_rel pT pTh s c h
    obtain ⟨r1, r2, g1, g2, g3, g4⟩ := ih q1 q2 (stepChar s c).1 e2
    refine ⟨r1, r2, ?_, g2, ?_, ?_⟩
    · rw [processChars_cons, processChars_cons, e1]
      exact g1
    · rw [processChars_cons, processChars_cons, e1]
      simp only [textConcat_append, List.append_assoc]
      rw [g3, ← List.append_assoc, e3, List.append_assoc]
    · rw [processChars_cons, processChars_cons, e1]
      simp only [thinkingConcat_append, List.append_assoc]
      rw [g4, ← List.append_assoc, e4, List.append_assoc]

/-- The full remaining output (processing plus final flush) from a
    buffer-extended state is the plain output with the pendings prepended. -/
theorem totalRun_rel (pT pTh : List Char) (s : ParserState) (cs : List Char)
    (hinv : PendInv pT pTh s) :
    textConcat (totalRun (bufExt pT pTh s) cs) = pT ++ textConcat (totalRun s cs) ∧
    thinkingConcat (totalRun (bufExt pT pTh s) cs) =
      pTh ++ thinkingConcat (totalRun s cs) := by
  obtain ⟨q1, q2, e1, e2, e3, e4⟩ := processChars_rel cs pT pTh s hinv
  obtain ⟨f1, f2, f3⟩ := flushBufs_rel q1 q2 _ e2
  unfold totalRun
  rw [e1]
  constructor
  · simp only [textConcat_append]
    rw [f2, ← List.append_assoc, e3, List.append_assoc]
  · simp only [thinkingConcat_append]
    rw [f3, ← List.append_assoc, e4, List.append_assoc]

/-- Inserting a flush does not change the total remaining output. -/
theorem flush_then_totalRun (s : ParserState) (cs : List Char) :
    textConcat (flushBufs s).2 ++ textConcat (totalRun (flushBufs s).1 cs) =
      textConcat (totalRun s cs) ∧
    thinkingConcat (flushBufs s).2 ++ thinkingConcat (totalRun (flushBufs s).1 cs) =
      thinkingConcat (totalRun s cs) := by
  by_cases h1 : s.inThinking = true
  · by_cases h2 : s.thinkingBuffer = []
    · rw [flushBufs_skip_thinking s h1 h2]
      simp
    · rw [flushBufs_thinking s h1 h2]
      have hbe : bufExt [] s.thinkingBuffer ({ s with thinkingBuffer := [] }) = s := by
        simp [bufExt]
      have hpi : PendInv [] s.thinkingBuffer ({ s with thinkingBuffer := [] }) :=
        ⟨fun hc => absurd rfl hc, fun _ => h1⟩
      obtain ⟨t1, t2⟩ := totalRun_rel [] s.thinkingBuffer
        ({ s with thinkingBuffer := [] }) cs hpi
      rw [hbe] at t1 t2
      rw [t1, t2]
      simp
  · have h1' : s.inThinking = false := by
      cases hx : s.inThinking
      · rfl
      · exact absurd hx h1
    by_cases h3 : s.inTool = true
    · rw [flushBufs_skip_tool s h1' h3]
      simp
    · have h3' : s.inTool = false := by
        cases hx : s.inTool
        · rfl
        · exact absurd hx h3
      by_cases h2 : s.textBuffer = []
      · rw [flushBufs_skip_text s h1' h2]
        simp
      · rw [flushBufs_text s h1' h3' h2]
        have hbe : bufExt s.textBuffer [] ({ s with textBuffer := [] }) = s := by
          simp [bufExt]
        have hpi : PendInv s.textBuffer [] ({ s with textBuffer := [] }) :=
          ⟨fun _ => ⟨h1', h3'⟩, fun hc => absurd rfl hc⟩
        obtain ⟨t1, t2⟩ := totalRun_rel s.textBuffer [] ({ s with textBuffer := [] }) cs hpi
        rw [hbe] at t1 t2
        rw [t1, t2]
        simp

/-- A second consecutive flush emits nothing. -/
theorem flushBufs_twice (s : ParserState) : (flushBufs (flushBufs s).1).2 = [] := by
  by_cases h1 : s.inThinking = true
  · by_cases h2 : s.thinkingBuffer = []
    · rw [flushBufs_skip_thinking s h1 h2, flushBufs_skip_thinking s h1 h2]
    · rw [flushBufs_thinking s h1 h2]
      rw [flushBufs_skip_thinking ({ s with thinkingBuffer := [] }) h1 rfl]
  · have h1' : s.inThinking = false := by
      cases hx : s.inThinking
      · rfl
      · exact absurd hx h1
    by_cases h3 : s.inTool = true
    · rw [flushBufs_skip_tool s h1' h3, flushBufs_skip_tool s h1' h3]
    · by_cases h2 : s.textBuffer = []
      · rw [flushBufs_skip_text s h1' h2, flushBufs_skip_text s h1' h2]
      · rw [flushBufs_text s h1' (by
          cases hx : s.inTool
          · rfl
          · exact absurd hx h3) h2]
        rw [flushBufs_skip_text ({ s with textBuffer := [] }) h1' rfl]

@[simp] theorem flushBufs_pendingTag (s : ParserState) :
    (flushBufs s).1.pendingTag = s.pendingTag := by
  unfold flushBufs
  split_ifs <;> rfl

@[simp] theorem stepChar_pendingTag (s : ParserState) (c : Char) :
    (stepChar s c).1.pendingTag = s.pendingTag := by
  simp only [stepChar]
  split_ifs <;> simp [flushBufs_pendingTag]

theorem processChars_pendingTag (cs : List Char) : ∀ s : ParserState,
    (processChars s cs).1.pendingTag = s.pendingTag := by
  induction cs with
  | nil => intro s; rfl
  | cons c rest ih =>
    intro s
    rw [processChars_cons]
    simp [ih]

/-- Unfolding one chunk of the chunk loop. -/
theorem feedChunks_cons (s : ParserState) (cdata : List Char)
    (rest : List (List Char)) :
    feedChunks s (cdata :: rest) =
      ((feedChunks (feedChunk s cdata).1 rest).1,
       (feedChunk s cdata).2 ++ (feedChunks (feedChunk s cdata).1 rest).2) := rfl

/-- feedChunk at a state whose partial_tag is empty (as in every reachable
    state: the aggressive parser never assigns it). -/
theorem feedChunk_eq (s : ParserState) (h : s.pendingTag = []) (cdata : List Char) :
    feedChunk s cdata =
      ((flushBufs (processChars s cdata).1).1,
       (processChars s cdata).2 ++ (flushBufs (processChars s cdata).1).2) := by
  have hupd : ({ s with pendingTag := [] } : ParserState) = s := by rw [← h]
  simp only [feedChunk, hupd, h, List.nil_append]

/-- Splitting the total remaining output at a character boundary. -/
theorem totalRun_split (s : ParserState) (a b : List Char) :
    textConcat (totalRun s (a ++ b)) =
      textConcat (processChars s a).2 ++ textConcat (totalRun (processChars s a).1 b) ∧
    thinkingConcat (totalRun s (a ++ b)) =
      thinkingConcat (processChars s a).2 ++
        thinkingConcat (totalRun (processChars s a).1 b) := by
  unfold totalRun
  rw [processChars_append a b s]
  constructor <;> simp

/-- The chunked run (flushing at every chunk boundary and at end of stream)
    produces the same text and thinking concatenations as the straight run
    over the flattened input. -/
theorem feedChunks_totalRun (chunks : List (List Char)) : ∀ s : ParserState,
    s.pendingTag = [] →
    textConcat ((feedChunks s chunks).2 ++ (feedEnd (feedChunks s chunks).1).2) =
      textConcat (totalRun s chunks.flatten) ∧
    thinkingConcat ((feedChunks s chunks).2 ++ (feedEnd (feedChunks s chunks).1).2) =
      thinkingConcat (totalRun s chunks.flatten) := by
  induction chunks with
  | nil =>
    intro s h
    constructor <;> simp [feedChunks, feedEnd, totalRun, processChars]
  | cons cdata rest ih =>
    intro s h
    have hmid : (flushBufs (processChars s cdata).1).1.pendingTag = [] := by
      rw [flushBufs_pendingTag, processChars_pendingTag, h]
    obtain ⟨ih1, ih2⟩ := ih (flushBufs (processChars s cdata).1).1 hmid
    rw [feedChunks_cons, feedChunk_eq s h cdata]
    have hsp := totalRun_split s cdata rest.flatten
    have hft := flush_then_totalRun (processChars s cdata).1 rest.flatten
    constructor
    · rw [List.flatten_cons, hsp.1, ← hft.1]
      simp only [textConcat_append, List.append_assoc]
      rw [← textConcat_append (feedChunks (flushBufs (processChars s cdata).1).1 rest).2
        (feedEnd (feedChunks (flushBufs (processChars s cdata).1).1 rest).1).2]
      rw [ih1]
    · rw [List.flatten_cons, hsp.2, ← hft.2]
      simp only [thinkingConcat_append, List.append_assoc]
      rw [← thinkingConcat_append (feedChunks (flushBufs (processChars s cdata).1).1 rest).2
        (feedEnd (feedChunks (flushBufs (processChars s cdata).1).1 rest).1).2]
      rw [ih2]

/-- Unfolding the full run. -/
theorem runChunks_eq (chunks : List (List Char)) :
    runChunks chunks =
      (feedChunks (resetParser 0) chunks).2 ++
        (feedEnd (feedChunks (resetParser 0) chunks).1).2 := rfl

/-- A single-chunk run produces the same concatenations as totalRun. -/
theorem runChunks_single_concats (cs : List Char) :
    textConcat (runChunks [cs]) = textConcat (totalRun (resetParser 0) cs) ∧
    thinkingConcat (runChunks [cs]) = thinkingConcat (totalRun (resetParser 0) cs) := by
  rw [runChunks_single]
  unfold totalRun
  constructor <;> simp [flushBufs_twice]

/-- C2: for every splitting of an input into chunks fed to the streaming
    parser followed by end-of-stream, the concatenation of the emitted Text
    contents and, separately, of the emitted Thinking contents (Tool events
    ignored) equals that of feeding the whole input as one chunk followed by
    end-of-stream. -/
theorem c2_chunk_boundary_independence (chunks : List (List Char)) :
    textConcat (runChunks chunks) = textConcat (runChunks [chunks.flatten]) ∧
    thinkingConcat (runChunks chunks) = thinkingConcat (runChunks [chunks.flatten]) := by
  obtain ⟨h1, h2⟩ := feedChunks_totalRun chunks (resetParser 0) rfl
  obtain ⟨g1, g2⟩ := runChunks_single_concats chunks.flatten
  rw [runChunks_eq chunks]
  exact ⟨by rw [h1, g1], by rw [h2, g2]⟩
